import Mathlib

/-!
Shallow embedding of the text-wrapping core of `src/interface/display.py`
(the Textboxes repository).

Modelling conventions:
* A pygame font is abstracted to its metric: `Font.size` maps a string to
  a `(width, height)` pair of natural numbers (pygame's `Font.size`).
* Python `deque`s are Lean `List`s with the head at the deque's left end;
  `append` is `l ++ [x]`, `pop` takes the last element, `popleft` the head,
  `extendleft xs` is `xs.reverse ++ l`.
* Text objects are mutable and tracked by identity in the source; a `Text`
  value carries an explicit `id : Nat` standing for the CPython object id,
  and in-place mutation becomes functional record update.
* Python ints are `Int` where a value can be negative (scroll offsets,
  current height, remaining widths); measured widths and heights are `Nat`.
* `while` loops that pop from a queue become structural recursion on the
  queue; the one loop whose progress argument is nontrivial
  (`_TextWrap._wrap_new_lines`) is given an explicit fuel parameter.
-/

namespace Textboxes

/-- `SPLIT_CHARS_AFTER = list(" -.,!?;/\\)>]}+*&^%`")` from display.py. -/
def SPLIT_CHARS_AFTER : List Char := (" -.,!?;/\\)>]\x7d+*&^%`").toList

/-- `SPLIT_CHARS_BEFORE = list("(<[{_$#@|~N")` from display.py. -/
def SPLIT_CHARS_BEFORE : List Char := ("(<[\x7b_$#@|~N").toList

/-- `SPLIT_CHARS_ALL = SPLIT_CHARS_AFTER + SPLIT_CHARS_BEFORE`. -/
def SPLIT_CHARS_ALL : List Char := SPLIT_CHARS_AFTER ++ SPLIT_CHARS_BEFORE

/-- `_split_chars_sort(char)`: index of the char in `SPLIT_CHARS_ALL`. -/
def splitCharsSort (c : Char) : Nat := SPLIT_CHARS_ALL.indexOf c

/-- A pygame `Font`, abstracted to its measuring function
`pygame.font.Font.size : str -> (width, height)`. -/
structure Font where
  size : String → Nat × Nat

/-- The `Text` class: `text_segment` (current view), `all_text` (full
string), the font, and the `new_line` flag.  `id` models CPython object
identity (`id(text)`), by which the engine tracks texts. -/
structure Text where
  id : Nat
  textSegment : String
  allText : String
  font : Font
  newLine : Bool

/-- `Text.get_size(text=None)`: measure `text` if given, else the current
`text_segment`. -/
def Text.getSize (t : Text) (s : Option String) : Nat × Nat :=
  t.font.size (s.getD t.textSegment)

/-- `Text.reset_text()`: restore `text_segment` to the full string. -/
def Text.resetText (t : Text) : Text :=
  { t with textSegment := t.allText }

/-- `Text.set_text_segment(text_segment)`: set the segment unless `None`. -/
def Text.setTextSegment (t : Text) (s : Option String) : Text :=
  match s with
  | some str => { t with textSegment := str }
  | none => t

/-- Width, as an `Int`, of `take (j+1)` of the segment with the hyphen
continuation marker appended — the quantity `_force_split` measures at
loop index `j`. -/
def Text.markerWidth (t : Text) (j : Nat) : Int :=
  ((t.font.size (t.textSegment.take (j + 1) ++ "-")).1 : Int)

/-- The scanning loop of `Text._force_split`: iterate over the given index
list (called with `List.range len(text_segment)`), tracking `best_ind`;
on the first index whose measured prefix-plus-marker exceeds
`remaining_width` stop, reporting whether the `ind == 0 and
remaining_width == box_width` branch cleared the segment. -/
def forceScanGo (t : Text) (remaining box : Int) :
    List Nat → Option Nat → Option Nat × Bool
  | [], best => (best, false)
  | ind :: rest, best =>
    let best' := if 0 < ind then some (ind - 1) else best
    if remaining < t.markerWidth ind then
      (best', decide (ind = 0 ∧ remaining = box))
    else
      forceScanGo t remaining box rest best'

/-- `Text._force_split(remaining_width, box_width)`: returns the updated
text together with `(best_segment, other_segment)`.  When `best_ind` is
`None` the code returns `("", text_segment)`, where `text_segment` was
cleared beforehand in the `ind == 0 and remaining_width == box_width`
case; the final `self.text_segment = best_segment` assignment is the
record update. -/
def Text.forceSplit (t : Text) (remaining box : Int) :
    Text × String × String :=
  let scan := forceScanGo t remaining box (List.range t.textSegment.length) none
  match scan.1 with
  | none =>
      let other := if scan.2 then "" else t.textSegment
      ({ t with textSegment := "" }, "", other)
  | some j =>
      let best := t.textSegment.take (j + 1) ++ "-"
      let other := t.textSegment.drop (j + 1)
      ({ t with textSegment := best }, best, other)

/-- Insertion into the Python dict `possible_split_points`, modelled as an
association list: overwrite the value at an existing key, else append. -/
def insertPoint (m : List (Char × String × String)) (c : Char)
    (v : String × String) : List (Char × String × String) :=
  if m.any (fun p => p.1 == c) then
    m.map (fun p => if p.1 == c then (c, v) else p)
  else m ++ [(c, v)]

/-- The candidate-collecting loop of `Text.split`, iterating over
`enumerate(self.text_segment)` with the dict accumulated so far; the
`else: break` on the first over-wide prefix ends the scan. -/
def splitScanGo (t : Text) (remaining box : Int) :
    List (Nat × Char) → List (Char × String × String) →
    List (Char × String × String)
  | [], m => m
  | (ind, ch) :: rest, m =>
    if ch ∈ SPLIT_CHARS_AFTER then
      let fitted := t.textSegment.take (ind + 1)
      let other := t.textSegment.drop (ind + 1)
      if ((t.font.size fitted).1 : Int) ≤ remaining then
        splitScanGo t remaining box rest
          (if ch ∈ SPLIT_CHARS_ALL ∧ ch ≠ 'N' then insertPoint m ch (fitted, other) else m)
      else m
    else if ind = 0 ∧ remaining = box then
      splitScanGo t remaining box rest m
    else
      let fitted := t.textSegment.take ind
      let other := t.textSegment.drop ind
      if ((t.font.size fitted).1 : Int) ≤ remaining then
        splitScanGo t remaining box rest
          (if ch ∈ SPLIT_CHARS_ALL ∧ ch ≠ 'N' then insertPoint m ch (fitted, other) else m)
      else m

/-- `possible_split_points` as built by `Text.split`: seeded with the
synthetic `"N"` candidate when `remaining_width < box_width`, then filled
by the scan. -/
def splitPoints (t : Text) (remaining box : Int) :
    List (Char × String × String) :=
  splitScanGo t remaining box t.textSegment.toList.enum
    (if remaining < box ∧ 'N' ∈ SPLIT_CHARS_ALL then [('N', ("", t.textSegment))] else [])

/-- The fold computing `sorted(keys, key=_split_chars_sort)[0]`: the key of
minimal `_split_chars_sort` index (indices are distinct, so the head of the
stable sort is exactly the fold's minimum). -/
def minSplitKey (c : Char) (cs : List Char) : Char :=
  cs.foldl (fun acc x => if splitCharsSort x < splitCharsSort acc then x else acc) c

/-- `Text.split(remaining_width, box_width)`: pick the best split candidate
by the fixed priority order, or fall back to `_force_split`.  Returns the
updated text and `(fitted, leftover)`. -/
def Text.split (t : Text) (remaining box : Int) : Text × String × String :=
  match splitPoints t remaining box with
  | [] => t.forceSplit remaining box
  | p :: ps =>
      let c := minSplitKey p.1 (ps.map Prod.fst)
      let v := (((p :: ps).find? (fun q => q.1 == c)).getD p).2
      ({ t with textSegment := v.1 }, v)

/-- The `_Line` class: the texts on the line, cumulative width and height,
the per-line segment overrides (`text_segments`, a dict keyed by `id(text)`
modelled as an association list), and the forced-break flag. -/
structure Line where
  textList : List Text
  width : Nat
  height : Nat
  textSegments : List (Nat × String)
  newLine : Bool

/-- `_Line()`: a fresh empty line. -/
def Line.empty : Line :=
  { textList := [], width := 0, height := 0, textSegments := [], newLine := false }

/-- Dict assignment on an id-keyed association list: overwrite the key if
present, else add it at the end. -/
def upsertSegment (l : List (Nat × String)) (tid : Nat) (seg : String) :
    List (Nat × String) :=
  if l.any (fun p => p.1 == tid) then
    l.map (fun p => if p.1 == tid then (tid, seg) else p)
  else l ++ [(tid, seg)]

/-- `self.text_segments[text_id] = seg`: dict assignment on the override
map. -/
def Line.setSegment (line : Line) (tid : Nat) (seg : String) : Line :=
  { line with textSegments := upsertSegment line.textSegments tid seg }

/-- `_Line.fit_text(box_text_list, box_width)`: pop texts from the front of
the queue while they fit whole; on the first text that does not fit, split
it, keep the fitted part (if any), push the text back for its leftover (if
any), and stop.  Returns `(line, queue, added_text,
following_text_segment)`. -/
def Line.fitText (line : Line) (queue : List Text) (box : Int) :
    Line × List Text × List Text × Option (Nat × String) :=
  match queue with
  | [] => (line, [], [], none)
  | t :: rest =>
    if line.newLine then (line, t :: rest, [], none)
    else
      let t1 := t.setTextSegment (line.textSegments.lookup t.id)
      let tw := (t1.getSize none).1
      let th := (t1.getSize none).2
      if ((line.width + tw : Nat) : Int) ≤ box then
        let line' :=
          { line with
            width := line.width + tw
            height := max line.height th
            textList := line.textList ++ [t1] }
        if t1.newLine then
          ({ line' with newLine := true }, rest, [t1], none)
        else
          let next := Line.fitText line' rest box
          (next.1, next.2.1, t1 :: next.2.2.1, next.2.2.2)
      else
        let remaining := box - (line.width : Int)
        let sp := t1.split remaining box
        let t2 := sp.1
        let fitted := sp.2.1
        let leftover := sp.2.2
        let line1 :=
          if fitted ≠ "" then
            let lineA := line.setSegment t2.id fitted
            let tw2 := (t2.getSize none).1
            let th2 := (t2.getSize none).2
            { lineA with
              width := lineA.width + tw2
              height := max lineA.height th2
              textList := lineA.textList ++ [t2] }
          else line
        if leftover ≠ "" then
          let queue' := if rest.any (fun x => x.id == t2.id) then rest else t2 :: rest
          (line1, queue', [t2], some (t2.id, leftover))
        else
          (line1, rest, [t2], none)

/-- The `fit_text` while-loop with an explicit fuel bound on the number of
iterations (texts popped); `none` means the loop was cut off by the fuel
before reaching one of its exit conditions. -/
def Line.fitTextFuel (fuel : Nat) (line : Line) (queue : List Text) (box : Int) :
    Option (Line × List Text × List Text × Option (Nat × String)) :=
  match queue with
  | [] => some (line, [], [], none)
  | t :: rest =>
    if line.newLine then some (line, t :: rest, [], none)
    else
      match fuel with
      | 0 => none
      | fuel + 1 =>
        let t1 := t.setTextSegment (line.textSegments.lookup t.id)
        let tw := (t1.getSize none).1
        let th := (t1.getSize none).2
        if ((line.width + tw : Nat) : Int) ≤ box then
          let line' :=
            { line with
              width := line.width + tw
              height := max line.height th
              textList := line.textList ++ [t1] }
          if t1.newLine then
            some ({ line' with newLine := true }, rest, [t1], none)
          else
            match Line.fitTextFuel fuel line' rest box with
            | none => none
            | some next => some (next.1, next.2.1, t1 :: next.2.2.1, next.2.2.2)
        else
          let remaining := box - (line.width : Int)
          let sp := t1.split remaining box
          let t2 := sp.1
          let fitted := sp.2.1
          let leftover := sp.2.2
          let line1 :=
            if fitted ≠ "" then
              let lineA := line.setSegment t2.id fitted
              let tw2 := (t2.getSize none).1
              let th2 := (t2.getSize none).2
              { lineA with
                width := lineA.width + tw2
                height := max lineA.height th2
                textList := lineA.textList ++ [t2] }
            else line
          if leftover ≠ "" then
            let queue' := if rest.any (fun x => x.id == t2.id) then rest else t2 :: rest
            some (line1, queue', [t2], some (t2.id, leftover))
          else
            some (line1, rest, [t2], none)

/-- The measured width a text contributes when the line is later walked:
its recorded segment override if one exists, else its current segment. -/
def Line.segWidth (line : Line) (t : Text) : Nat :=
  match line.textSegments.lookup t.id with
  | some s => (t.font.size s).1
  | none => (t.font.size t.textSegment).1

/-- Sum of the constituent texts' measured widths, overrides applied. -/
def Line.sumWidths (line : Line) : Nat :=
  (line.textList.map line.segWidth).sum

/-- Total number of characters across the segments of the queued texts. -/
def textsTotalChars (l : List Text) : Nat :=
  (l.map (fun t => t.textSegment.length)).sum

/-- A blit of one text segment at a device position, the observable effect
of `Text.render` (`display.blit(label, self.pos)`). -/
structure DrawCmd where
  segment : String
  x : Int
  y : Int

/-- The `_TextWrap` state.  `pos` is the `[x, y, width, height]` viewport
rectangle recorded by `render`; locks are dropped (the model is the
single-threaded interleaving the locks enforce). -/
structure TextWrap where
  wrappedTextList : List Text
  newTextList : List Text
  lines : List Line
  unloadedTextOld : List Text
  unloadedTextNew : List Text
  currentHeight : Int
  pos : Int × Int × Int × Int
  scroll : Int
  lockScroll : Bool

/-- Viewport x coordinate, `self.pos[0]`. -/
def posX (p : Int × Int × Int × Int) : Int := p.1

/-- Viewport y coordinate, `self.pos[1]`. -/
def posY (p : Int × Int × Int × Int) : Int := p.2.1

/-- Viewport width, `self.pos[2]`. -/
def posW (p : Int × Int × Int × Int) : Int := p.2.2.1

/-- Viewport height, `self.pos[3]`. -/
def posH (p : Int × Int × Int × Int) : Int := p.2.2.2

/-- `_TextWrap._next_line()`: pop the newest line to keep filling it (and
un-count its height, adjusting the scroll under `lock_scroll`), or start a
fresh line. -/
def TextWrap.nextLine (s : TextWrap) : Line × TextWrap :=
  match s.lines.getLast? with
  | some line =>
      (line, { s with lines := s.lines.dropLast,
                      currentHeight := s.currentHeight - (line.height : Int),
                      scroll := if s.lockScroll then s.scroll - 1 else s.scroll })
  | none => (Line.empty, s)

/-- The `while self.new_text_list or new_text_segment` loop of
`_TextWrap._wrap_new_lines`, with fuel bounding the number of iterations:
fill a line, stop (pushing the line's texts back) if it would overflow the
viewport height, otherwise commit it and continue on a fresh line seeded
with the leftover segment. -/
def TextWrap.wrapLoop : Nat → TextWrap → Line → Option (Nat × String) →
    Option TextWrap
  | fuel, s, line, nts =>
    if s.newTextList.isEmpty ∧ nts.isNone then some s
    else
      match fuel with
      | 0 => none
      | fuel + 1 =>
        let ft := Line.fitText line s.newTextList (posW s.pos)
        let line' := ft.1
        let s' := { s with newTextList := ft.2.1 }
        let added := ft.2.2.1
        let nts' := ft.2.2.2
        let hwl := s'.currentHeight + (line'.height : Int)
        if posH s.pos < hwl then
          some { s' with newTextList := line'.textList ++ s'.newTextList }
        else
          let s2 := { s' with
            wrappedTextList := s'.wrappedTextList ++ added
            lines := s'.lines ++ [line']
            scroll := if s'.lockScroll then s'.scroll + 1 else s'.scroll
            currentHeight := hwl }
          let newLine :=
            match nts' with
            | some p => { Line.empty with textSegments := [p] }
            | none => Line.empty
          TextWrap.wrapLoop fuel s2 newLine nts'

/-- `_TextWrap._wrap_new_lines()`: wrap pending text into lines while some
is queued and the materialized height is below the viewport height; `none`
is fuel exhaustion of the inner loop. -/
def TextWrap.wrapNewLines (fuel : Nat) (s : TextWrap) : Option TextWrap :=
  if s.newTextList.isEmpty = false ∧ s.currentHeight < posH s.pos then
    let nl := s.nextLine
    TextWrap.wrapLoop fuel nl.2 nl.1 none
  else some s

/-- The inner loop of `_purge_segments._purge_segments_from_list`,
processing the deque from its right end (so the argument here is the
reversed deque): texts whose id was already seen are dropped, fresh ones
are reset and kept (`appendleft` makes the kept texts rebuild in their
original order, which is the processing order reversed). -/
def purgeGo : List Text → Finset Nat → List Text × Finset Nat
  | [], used => ([], used)
  | t :: ts, used =>
    if t.id ∈ used then purgeGo ts used
    else
      let p := purgeGo ts (insert t.id used)
      (p.1 ++ [t.resetText], p.2)

/-- `_purge_segments_from_list(text_list, used_text_ids)`. -/
def purgeFromList (l : List Text) (used : Finset Nat) :
    List Text × Finset Nat :=
  purgeGo l.reverse used

/-- `_TextWrap._purge_segments()`: de-duplicate by id across the four text
deques (in the order wrapped, new, unloaded-old, unloaded-new), resetting
every surviving text. -/
def TextWrap.purgeSegments (s : TextWrap) : TextWrap :=
  let p1 := purgeFromList s.wrappedTextList ∅
  let p2 := purgeFromList s.newTextList p1.2
  let p3 := purgeFromList s.unloadedTextOld p2.2
  let p4 := purgeFromList s.unloadedTextNew p3.2
  { s with wrappedTextList := p1.1, newTextList := p2.1,
           unloadedTextOld := p3.1, unloadedTextNew := p4.1 }

/-- `_TextWrap.mark_wrap()`: clear the lines, purge split segments, and
move the wrapped texts back to the front of the pending queue
(`reverse` then `extendleft` keeps their original order). -/
def TextWrap.markWrap (s : TextWrap) : TextWrap :=
  let s1 := { s with lines := [], currentHeight := 0 }
  let s2 := s1.purgeSegments
  { s2 with newTextList := s2.wrappedTextList.reverse.reverse ++ s2.newTextList,
            wrappedTextList := [] }

/-- `_TextWrap._scroll_reposition()`: clamp the scroll into
`[0, len(self.lines)]`. -/
def TextWrap.scrollReposition (s : TextWrap) : TextWrap :=
  { s with scroll := min ((s.lines.length : Int)) (max 0 s.scroll) }

/-- `_TextWrap.scroll_lines(num_lines)`: add the delta, then clamp. -/
def TextWrap.scrollLines (s : TextWrap) (numLines : Int) : TextWrap :=
  TextWrap.scrollReposition { s with scroll := s.scroll + numLines }

/-- The `while len(self.lines) > self.scroll` loop of
`_get_lines_from_scroll`, on the reversed lines deque (so popping the
deque's right end is taking the head): pop lines into the accumulator
(rebuilding their original order) and total their heights.  When the deque
empties while the condition still holds (scroll negative, which
`_scroll_reposition` rules out at the call site) the loop stops rather
than fault. -/
def linesPopGo : List Line → Int → List Line → Int → List Line × List Line × Int
  | [], _, acc, h => ([], acc, h)
  | l :: rest, scroll, acc, h =>
    if scroll < ((rest.length + 1 : Nat) : Int) then
      linesPopGo rest scroll (l :: acc) (h + (l.height : Int))
    else (l :: rest, acc, h)

/-- `_TextWrap._get_lines_from_scroll()`: reposition the scroll, recount
`current_height` over the last `len(lines) - scroll` lines, and return
those lines (the deque is rebuilt unchanged by the final re-append loop). -/
def TextWrap.getLinesFromScroll (s : TextWrap) : List Line × TextWrap :=
  let s1 := s.scrollReposition
  let pop := linesPopGo s1.lines.reverse s1.scroll [] 0
  (pop.2.1, { s1 with lines := pop.1.reverse ++ pop.2.1,
                      currentHeight := pop.2.2 })

/-- `_Line.render(display)` as the list of blits it performs: walk the
texts left to right from the line's position, applying the recorded
segment overrides and advancing by each measured width. -/
def lineRenderGo (segs : List (Nat × String)) (p : Int × Int) :
    List Text → Int → List DrawCmd
  | [], _ => []
  | t :: rest, textX =>
      let t1 := t.setTextSegment (segs.lookup t.id)
      { segment := t1.textSegment, x := p.1 + textX, y := p.2 } ::
        lineRenderGo segs p rest (textX + ((t1.getSize none).1 : Int))

/-- The blits of one line at position `p`. -/
def Line.renderCmds (line : Line) (p : Int × Int) : List DrawCmd :=
  lineRenderGo line.textSegments p line.textList 0

/-- The drawing loop at the end of `_TextWrap.render`: draw each line whose
bottom edge stays inside the viewport, stacking downward; stop at the
first line that would overflow. -/
def drawLinesGo (pos : Int × Int × Int × Int) : List Line → Int → List DrawCmd
  | [], _ => []
  | line :: rest, lineY =>
    if (line.height : Int) + lineY ≤ posY pos + posH pos then
      line.renderCmds (posX pos, lineY) ++ drawLinesGo pos rest (lineY + (line.height : Int))
    else []

/-- `_TextWrap.render(display, pos)`: record the viewport, recompute the
scroll window, wrap pending text, recompute the window again, and draw it.
Returns the final state and the blits; `none` is wrap-loop fuel
exhaustion. -/
def TextWrap.render (fuel : Nat) (s : TextWrap) (pos : Int × Int × Int × Int) :
    Option (TextWrap × List DrawCmd) :=
  let s1 := { s with pos := pos }
  let s2 := (s1.getLinesFromScroll).2
  match s2.wrapNewLines fuel with
  | none => none
  | some s3 =>
      let gl := s3.getLinesFromScroll
      some (gl.2, drawLinesGo gl.2.pos gl.1 (posY gl.2.pos))

/-! ### The render pass under a failing measurer

The spec treats the text measurer as an injected TextMeasurer capability
that may throw.  The following definitions re-run the render pass with one
injected fallible measurer `m` replacing every `font.size` call; `none`
(or the `Except.error` payload, which carries the torn state the way the
Python objects keep their in-place mutations when the exception
propagates) models the exception escaping `render`. -/

/-- A fallible measurer: `none` models `Font.size` raising. -/
def MeasE : Type := String → Option (Nat × Nat)

/-- `Text.get_size` under the fallible measurer. -/
def Text.getSizeE (m : MeasE) (t : Text) (s : Option String) : Option (Nat × Nat) :=
  m (s.getD t.textSegment)

/-- The `_force_split` scan under the fallible measurer. -/
def forceScanGoE (m : MeasE) (t : Text) (remaining box : Int) :
    List Nat → Option Nat → Option (Option Nat × Bool)
  | [], best => some (best, false)
  | ind :: rest, best =>
    match m (t.textSegment.take (ind + 1) ++ "-") with
    | none => none
    | some sz =>
      let best' := if 0 < ind then some (ind - 1) else best
      if remaining < (sz.1 : Int) then some (best', decide (ind = 0 ∧ remaining = box))
      else forceScanGoE m t remaining box rest best'

/-- `Text._force_split` under the fallible measurer; at every raise point
the text is still unmutated, so the exception needs no payload. -/
def Text.forceSplitE (m : MeasE) (t : Text) (remaining box : Int) :
    Option (Text × String × String) :=
  match forceScanGoE m t remaining box (List.range t.textSegment.length) none with
  | none => none
  | some scan =>
    match scan.1 with
    | none =>
        let other := if scan.2 then "" else t.textSegment
        some ({ t with textSegment := "" }, "", other)
    | some j =>
        let best := t.textSegment.take (j + 1) ++ "-"
        let other := t.textSegment.drop (j + 1)
        some ({ t with textSegment := best }, best, other)

/-- The candidate scan of `Text.split` under the fallible measurer. -/
def splitScanGoE (m : MeasE) (t : Text) (remaining box : Int) :
    List (Nat × Char) → List (Char × String × String) →
    Option (List (Char × String × String))
  | [], acc => some acc
  | (ind, ch) :: rest, acc =>
    if ch ∈ SPLIT_CHARS_AFTER then
      let fitted := t.textSegment.take (ind + 1)
      let other := t.textSegment.drop (ind + 1)
      match m fitted with
      | none => none
      | some sz =>
        if (sz.1 : Int) ≤ remaining then
          splitScanGoE m t remaining box rest
            (if ch ∈ SPLIT_CHARS_ALL ∧ ch ≠ 'N' then insertPoint acc ch (fitted, other) else acc)
        else some acc
    else if ind = 0 ∧ remaining = box then
      splitScanGoE m t remaining box rest acc
    else
      let fitted := t.textSegment.take ind
      let other := t.textSegment.drop ind
      match m fitted with
      | none => none
      | some sz =>
        if (sz.1 : Int) ≤ remaining then
          splitScanGoE m t remaining box rest
            (if ch ∈ SPLIT_CHARS_ALL ∧ ch ≠ 'N' then insertPoint acc ch (fitted, other) else acc)
        else some acc

/-- `Text.split` under the fallible measurer. -/
def Text.splitE (m : MeasE) (t : Text) (remaining box : Int) :
    Option (Text × String × String) :=
  match splitScanGoE m t remaining box t.textSegment.toList.enum
      (if remaining < box ∧ 'N' ∈ SPLIT_CHARS_ALL then [('N', ("", t.textSegment))] else []) with
  | none => none
  | some [] => t.forceSplitE m remaining box
  | some (p :: ps) =>
      let c := minSplitKey p.1 (ps.map Prod.fst)
      let v := (((p :: ps).find? (fun q => q.1 == c)).getD p).2
      some ({ t with textSegment := v.1 }, v)

/-- `_Line.fit_text` under the fallible measurer.  The `Except.error`
payload is the pair `(line, queue)` as they stand when the exception
escapes: the popped text is already gone from the queue, and a segment
override recorded just before a failing re-measure stays recorded. -/
def Line.fitTextE (m : MeasE) (line : Line) (queue : List Text) (box : Int) :
    Except (Line × List Text)
      (Line × List Text × List Text × Option (Nat × String)) :=
  match queue with
  | [] => .ok (line, [], [], none)
  | t :: rest =>
    if line.newLine then .ok (line, t :: rest, [], none)
    else
      let t1 := t.setTextSegment (line.textSegments.lookup t.id)
      match t1.getSizeE m none with
      | none => .error (line, rest)
      | some sz =>
        let tw := sz.1
        let th := sz.2
        if ((line.width + tw : Nat) : Int) ≤ box then
          let line' :=
            { line with
              width := line.width + tw
              height := max line.height th
              textList := line.textList ++ [t1] }
          if t1.newLine then
            .ok ({ line' with newLine := true }, rest, [t1], none)
          else
            match Line.fitTextE m line' rest box with
            | .error e => .error e
            | .ok next => .ok (next.1, next.2.1, t1 :: next.2.2.1, next.2.2.2)
        else
          let remaining := box - (line.width : Int)
          match t1.splitE m remaining box with
          | none => .error (line, rest)
          | some sp =>
            let t2 := sp.1
            let fitted := sp.2.1
            let leftover := sp.2.2
            if fitted = "" then
              if leftover ≠ "" then
                let queue' := if rest.any (fun x => x.id == t2.id) then rest else t2 :: rest
                .ok (line, queue', [t2], some (t2.id, leftover))
              else .ok (line, rest, [t2], none)
            else
              let lineA := line.setSegment t2.id fitted
              match t2.getSizeE m none with
              | none => .error (lineA, rest)
              | some sz2 =>
                let line1 :=
                  { lineA with
                    width := lineA.width + sz2.1
                    height := max lineA.height sz2.2
                    textList := lineA.textList ++ [t2] }
                if leftover ≠ "" then
                  let queue' := if rest.any (fun x => x.id == t2.id) then rest else t2 :: rest
                  .ok (line1, queue', [t2], some (t2.id, leftover))
                else .ok (line1, rest, [t2], none)

/-- The `_wrap_new_lines` loop under the fallible measurer: an exception
escaping `fit_text` propagates with the queue as `fit_text` left it and
the in-progress line discarded. -/
def TextWrap.wrapLoopE (m : MeasE) : Nat → TextWrap → Line →
    Option (Nat × String) → Option (Except TextWrap TextWrap)
  | fuel, s, line, nts =>
    if s.newTextList.isEmpty ∧ nts.isNone then some (.ok s)
    else
      match fuel with
      | 0 => none
      | fuel + 1 =>
        match Line.fitTextE m line s.newTextList (posW s.pos) with
        | .error e => some (.error { s with newTextList := e.2 })
        | .ok ft =>
          let line' := ft.1
          let s' := { s with newTextList := ft.2.1 }
          let added := ft.2.2.1
          let nts' := ft.2.2.2
          let hwl := s'.currentHeight + (line'.height : Int)
          if posH s.pos < hwl then
            some (.ok { s' with newTextList := line'.textList ++ s'.newTextList })
          else
            let s2 := { s' with
              wrappedTextList := s'.wrappedTextList ++ added
              lines := s'.lines ++ [line']
              scroll := if s'.lockScroll then s'.scroll + 1 else s'.scroll
              currentHeight := hwl }
            let newLine :=
              match nts' with
              | some p => { Line.empty with textSegments := [p] }
              | none => Line.empty
            TextWrap.wrapLoopE m fuel s2 newLine nts'

/-- `_wrap_new_lines` under the fallible measurer. -/
def TextWrap.wrapNewLinesE (fuel : Nat) (m : MeasE) (s : TextWrap) :
    Option (Except TextWrap TextWrap) :=
  if s.newTextList.isEmpty = false ∧ s.currentHeight < posH s.pos then
    let nl := s.nextLine
    TextWrap.wrapLoopE m fuel nl.2 nl.1 none
  else some (.ok s)

/-- `_Line.render` under the fallible measurer. -/
def lineRenderGoE (m : MeasE) (segs : List (Nat × String)) (p : Int × Int) :
    List Text → Int → Option (List DrawCmd)
  | [], _ => some []
  | t :: rest, textX =>
      let t1 := t.setTextSegment (segs.lookup t.id)
      match t1.getSizeE m none with
      | none => none
      | some sz =>
        (lineRenderGoE m segs p rest (textX + (sz.1 : Int))).map
          (fun cmds => { segment := t1.textSegment, x := p.1 + textX, y := p.2 } :: cmds)

/-- The final drawing loop under the fallible measurer. -/
def drawLinesGoE (m : MeasE) (pos : Int × Int × Int × Int) :
    List Line → Int → Option (List DrawCmd)
  | [], _ => some []
  | line :: rest, lineY =>
    if (line.height : Int) + lineY ≤ posY pos + posH pos then
      match lineRenderGoE m line.textSegments (posX pos, lineY) line.textList 0 with
      | none => none
      | some cmds =>
        (drawLinesGoE m pos rest (lineY + (line.height : Int))).map (cmds ++ ·)
    else some []

/-- `_TextWrap.render` under the fallible measurer: `some (.error s)` is
the exception escaping to the caller with the buffer torn as `s`;
`some (.ok _)` is a completed pass; `none` is wrap-loop fuel exhaustion. -/
def TextWrap.renderE (fuel : Nat) (m : MeasE) (s : TextWrap)
    (pos : Int × Int × Int × Int) :
    Option (Except TextWrap (TextWrap × List DrawCmd)) :=
  let s1 := { s with pos := pos }
  let s2 := (s1.getLinesFromScroll).2
  match s2.wrapNewLinesE fuel m with
  | none => none
  | some (.error s3) => some (.error s3)
  | some (.ok s3) =>
    let gl := s3.getLinesFromScroll
    match drawLinesGoE m gl.2.pos gl.1 (posY gl.2.pos) with
    | none => some (.error gl.2)
    | some draws => some (.ok (gl.2, draws))

/-! ### Concrete fixtures for witnesses and counterexamples -/

/-- A concrete monospace metric: 10 device units per character, height 24. -/
def mono : Font := ⟨fun s => (10 * s.length, 24)⟩

/-- A fresh text with the monospace metric. -/
def mkText (i : Nat) (s : String) : Text :=
  { id := i, textSegment := s, allText := s, font := mono, newLine := false }

/-- A measurer that always raises. -/
def failMeas : MeasE := fun _ => none

/-! ### Theorems -/

/-- C5: after any `scroll_lines` call, the scroll offset lies in
`[0, len(lines)]` (and `lines` itself is untouched by the call).  This
holds for every starting state, so it holds after each call of any
sequence of calls with arbitrary integer deltas. -/
theorem scrollLines_bounds (s : TextWrap) (n : Int) :
    0 ≤ (s.scrollLines n).scroll ∧
      (s.scrollLines n).scroll ≤ (((s.scrollLines n).lines.length : Nat) : Int) := by
  unfold TextWrap.scrollLines TextWrap.scrollReposition
  exact ⟨le_min (Int.ofNat_nonneg _) (le_max_left 0 _), min_le_left _ _⟩

/-- A sequence of `split` calls applied to one text, each taking the
updated text onward. -/
def applySplits (t : Text) (ops : List (Int × Int)) : Text :=
  ops.foldl (fun acc p => (acc.split p.1 p.2).1) t

/-- `split` (through either the candidate branch or `_force_split`) only
writes `text_segment`: `all_text` and the font survive. -/
theorem split_preserves_allText_font (t : Text) (remaining box : Int) :
    (t.split remaining box).1.allText = t.allText ∧
      (t.split remaining box).1.font = t.font := by
  unfold Text.split
  split
  · simp only [Text.forceSplit]
    split <;> exact ⟨rfl, rfl⟩
  · exact ⟨rfl, rfl⟩

/-- Any sequence of splits leaves `all_text` and the font unchanged. -/
theorem applySplits_preserves (t : Text) (ops : List (Int × Int)) :
    (applySplits t ops).allText = t.allText ∧ (applySplits t ops).font = t.font := by
  induction ops generalizing t with
  | nil => exact ⟨rfl, rfl⟩
  | cons p ps ih =>
      have h1 := split_preserves_allText_font t p.1 p.2
      have h2 := ih ((t.split p.1 p.2).1)
      exact ⟨h2.1.trans h1.1, h2.2.trans h1.2⟩

/-- C9: after any sequence of `split` calls, `reset_text()` followed by
`get_size()` gives exactly the measurement of the original full string:
`reset_text` restores `text_segment = all_text` and `split` never touches
`all_text`. -/
theorem reset_after_splits_measures_full (t : Text) (ops : List (Int × Int)) :
    ((applySplits t ops).resetText).getSize none = t.getSize (some t.allText) := by
  have h := applySplits_preserves t ops
  unfold Text.resetText Text.getSize
  simp [h.1, h.2]

/-- The ids of a list of texts, in order. -/
def textIds (l : List Text) : List Nat := l.map Text.id

/-- All texts reachable from the four deques of a `_TextWrap`, in deque
order. -/
def TextWrap.allTexts (s : TextWrap) : List Text :=
  s.wrappedTextList ++ s.newTextList ++ s.unloadedTextOld ++ s.unloadedTextNew

/-- Unfolding `purgeGo` when the head's id was already seen. -/
theorem purgeGo_cons_mem (t : Text) (ts : List Text) (u : Finset Nat)
    (h : t.id ∈ u) : purgeGo (t :: ts) u = purgeGo ts u := by
  rw [purgeGo, if_pos h]

/-- Unfolding `purgeGo` when the head's id is fresh. -/
theorem purgeGo_cons_not (t : Text) (ts : List Text) (u : Finset Nat)
    (h : t.id ∉ u) :
    purgeGo (t :: ts) u
      = ((purgeGo ts (insert t.id u)).1 ++ [t.resetText],
         (purgeGo ts (insert t.id u)).2) := by
  rw [purgeGo, if_neg h]

/-- Everything the purge loop guarantees: the returned used-set is the old
one plus this list's ids; the kept texts have pairwise distinct ids; and an
id survives iff it occurred here and was not already used. -/
theorem purgeGo_spec (l : List Text) (u : Finset Nat) :
    (purgeGo l u).2 = u ∪ (textIds l).toFinset ∧
      (textIds (purgeGo l u).1).Nodup ∧
      (∀ x, x ∈ textIds (purgeGo l u).1 ↔ x ∈ textIds l ∧ x ∉ u) := by
  induction l generalizing u with
  | nil => simp [purgeGo, textIds]
  | cons t ts ih =>
    by_cases hm : t.id ∈ u
    · rw [purgeGo_cons_mem t ts u hm]
      obtain ⟨ha, hb, hc⟩ := ih u
      refine ⟨?_, hb, ?_⟩
      · rw [ha]
        ext x
        simp only [Finset.mem_union, List.mem_toFinset, textIds, List.map_cons,
          List.mem_cons]
        constructor
        · rintro (h | h)
          · exact Or.inl h
          · exact Or.inr (Or.inr h)
        · rintro (h | h | h)
          · exact Or.inl h
          · exact Or.inl (by rw [h]; exact hm)
          · exact Or.inr h
      · intro x
        rw [hc x]
        simp only [textIds, List.map_cons, List.mem_cons]
        constructor
        · rintro ⟨h1, h2⟩
          exact ⟨Or.inr h1, h2⟩
        · rintro ⟨h1 | h1, h2⟩
          · exact absurd (show x ∈ u by rw [h1]; exact hm) h2
          · exact ⟨h1, h2⟩
    · rw [purgeGo_cons_not t ts u hm]
      obtain ⟨ha, hb, hc⟩ := ih (insert t.id u)
      have hids : textIds ((purgeGo ts (insert t.id u)).1 ++ [t.resetText])
          = textIds (purgeGo ts (insert t.id u)).1 ++ [t.id] := by
        simp [textIds, Text.resetText]
      refine ⟨?_, ?_, ?_⟩
      · show (purgeGo ts (insert t.id u)).2 = _
        rw [ha]
        ext x
        simp only [Finset.mem_union, Finset.mem_insert, List.mem_toFinset, textIds,
          List.map_cons, List.mem_cons]
        tauto
      · show (textIds ((purgeGo ts (insert t.id u)).1 ++ [t.resetText])).Nodup
        rw [hids, List.nodup_append]
        refine ⟨hb, List.nodup_singleton _, ?_⟩
        intro a ha1 ha2
        rw [List.mem_singleton] at ha2
        subst ha2
        exact ((hc t.id).mp ha1).2 (Finset.mem_insert_self _ _)
      · intro x
        show x ∈ textIds ((purgeGo ts (insert t.id u)).1 ++ [t.resetText]) ↔ _
        rw [hids, List.mem_append, List.mem_singleton, hc x]
        simp only [textIds, List.map_cons, List.mem_cons, Finset.mem_insert]
        constructor
        · rintro (⟨h1, h2⟩ | h1)
          · exact ⟨Or.inr h1, fun hu => h2 (Or.inr hu)⟩
          · exact ⟨Or.inl h1, by rw [h1]; exact hm⟩
        · rintro ⟨h1 | h1, h2⟩
          · exact Or.inr h1
          · by_cases hxe : x = t.id
            · exact Or.inr hxe
            · exact Or.inl ⟨h1, fun hc2 => hc2.elim hxe h2⟩

/-- `purgeFromList` in terms of `purgeGo` on the reversed deque. -/
theorem purgeFromList_spec (l : List Text) (u : Finset Nat) :
    (purgeFromList l u).2 = u ∪ (textIds l).toFinset ∧
      (textIds (purgeFromList l u).1).Nodup ∧
      (∀ x, x ∈ textIds (purgeFromList l u).1 ↔ x ∈ textIds l ∧ x ∉ u) := by
  have h := purgeGo_spec l.reverse u
  have hrev : textIds l.reverse = (textIds l).reverse := by simp [textIds]
  unfold purgeFromList
  refine ⟨?_, h.2.1, ?_⟩
  · rw [h.1, hrev]
    congr 1
    ext x
    simp
  · intro x
    rw [h.2.2 x, hrev]
    simp

/-- Merging four id lists whose memberships are the originals filtered by
the accumulated used-sets preserves the union and is duplicate-free. -/
theorem mergeFour_spec (A B C D W N UO UN : List Nat)
    (M1 : ∀ x, x ∈ A ↔ x ∈ W)
    (M2 : ∀ x, x ∈ B ↔ (x ∈ N ∧ ¬ x ∈ W))
    (M3 : ∀ x, x ∈ C ↔ (x ∈ UO ∧ ¬ (x ∈ W ∨ x ∈ N)))
    (M4 : ∀ x, x ∈ D ↔ (x ∈ UN ∧ ¬ (x ∈ W ∨ x ∈ N ∨ x ∈ UO)))
    (n1 : A.Nodup) (n2 : B.Nodup) (n3 : C.Nodup) (n4 : D.Nodup) :
    ((A ++ B) ++ (C ++ D)).toFinset = (W ++ (N ++ (UO ++ UN))).toFinset ∧
      ((A ++ B) ++ (C ++ D)).Nodup := by
  constructor
  · ext x
    simp only [List.mem_toFinset, List.mem_append, M1 x, M2 x, M3 x, M4 x]
    tauto
  · rw [List.nodup_append, List.nodup_append, List.nodup_append]
    refine ⟨⟨n1, n2, ?_⟩, ⟨n3, n4, ?_⟩, ?_⟩
    · intro a ha hb
      exact ((M2 a).mp hb).2 ((M1 a).mp ha)
    · intro a ha hb
      exact ((M4 a).mp hb).2 (Or.inr (Or.inr ((M3 a).mp ha).1))
    · intro a ha hb
      rcases List.mem_append.mp hb with hb | hb
      · rcases List.mem_append.mp ha with ha | ha
        · exact ((M3 a).mp hb).2 (Or.inl ((M1 a).mp ha))
        · exact ((M3 a).mp hb).2 (Or.inr ((M2 a).mp ha).1)
      · rcases List.mem_append.mp ha with ha | ha
        · exact ((M4 a).mp hb).2 (Or.inl ((M1 a).mp ha))
        · exact ((M4 a).mp hb).2 (Or.inr (Or.inl ((M2 a).mp ha).1))

/-- `textIds` distributes over append. -/
theorem textIds_append (a b : List Text) :
    textIds (a ++ b) = textIds a ++ textIds b := by
  simp [textIds]

/-- C1: `mark_wrap` neither loses nor duplicates texts: the set of text
identities reachable from the four deques is unchanged, and afterwards
each identity occurs exactly once across them — including the case of a
split text present both in `wrapped_text_list` and at the front of
`new_text_list`. -/
theorem markWrap_no_loss_no_duplication (s : TextWrap) :
    (textIds (s.markWrap).allTexts).toFinset = (textIds s.allTexts).toFinset ∧
      (textIds (s.markWrap).allTexts).Nodup := by
  obtain ⟨e1, n1, m1⟩ := purgeFromList_spec s.wrappedTextList (∅ : Finset Nat)
  obtain ⟨e2, n2, m2⟩ := purgeFromList_spec s.newTextList
    (purgeFromList s.wrappedTextList ∅).2
  obtain ⟨e3, n3, m3⟩ := purgeFromList_spec s.unloadedTextOld
    (purgeFromList s.newTextList (purgeFromList s.wrappedTextList ∅).2).2
  obtain ⟨e4, n4, m4⟩ := purgeFromList_spec s.unloadedTextNew
    (purgeFromList s.unloadedTextOld
      (purgeFromList s.newTextList (purgeFromList s.wrappedTextList ∅).2).2).2
  have HU1 : ∀ x, x ∈ (purgeFromList s.wrappedTextList ∅).2
      ↔ x ∈ textIds s.wrappedTextList := by
    intro x; rw [e1]; simp
  have HU2 : ∀ x, x ∈ (purgeFromList s.newTextList
        (purgeFromList s.wrappedTextList ∅).2).2
      ↔ (x ∈ textIds s.wrappedTextList ∨ x ∈ textIds s.newTextList) := by
    intro x
    rw [e2]
    simp only [Finset.mem_union, List.mem_toFinset, HU1 x]
  have HU3 : ∀ x, x ∈ (purgeFromList s.unloadedTextOld
        (purgeFromList s.newTextList (purgeFromList s.wrappedTextList ∅).2).2).2
      ↔ (x ∈ textIds s.wrappedTextList ∨ x ∈ textIds s.newTextList
          ∨ x ∈ textIds s.unloadedTextOld) := by
    intro x
    rw [e3]
    simp only [Finset.mem_union, List.mem_toFinset, HU2 x]
    tauto
  have M1 : ∀ x, x ∈ textIds (purgeFromList s.wrappedTextList ∅).1
      ↔ x ∈ textIds s.wrappedTextList := by
    intro x; rw [m1 x]; simp
  have M2 : ∀ x, x ∈ textIds (purgeFromList s.newTextList
        (purgeFromList s.wrappedTextList ∅).2).1
      ↔ (x ∈ textIds s.newTextList ∧ ¬ x ∈ textIds s.wrappedTextList) := by
    intro x
    rw [m2 x]
    simp only [HU1 x]
  have M3 : ∀ x, x ∈ textIds (purgeFromList s.unloadedTextOld
        (purgeFromList s.newTextList (purgeFromList s.wrappedTextList ∅).2).2).1
      ↔ (x ∈ textIds s.unloadedTextOld
          ∧ ¬ (x ∈ textIds s.wrappedTextList ∨ x ∈ textIds s.newTextList)) := by
    intro x
    rw [m3 x]
    simp only [HU2 x]
  have M4 : ∀ x, x ∈ textIds (purgeFromList s.unloadedTextNew
        (purgeFromList s.unloadedTextOld
          (purgeFromList s.newTextList (purgeFromList s.wrappedTextList ∅).2).2).2).1
      ↔ (x ∈ textIds s.unloadedTextNew
          ∧ ¬ (x ∈ textIds s.wrappedTextList ∨ x ∈ textIds s.newTextList
              ∨ x ∈ textIds s.unloadedTextOld)) := by
    intro x
    rw [m4 x]
    simp only [HU3 x]
  have hall : (s.markWrap).allTexts
      = ((purgeFromList s.wrappedTextList ∅).1.reverse.reverse
          ++ (purgeFromList s.newTextList (purgeFromList s.wrappedTextList ∅).2).1)
        ++ (purgeFromList s.unloadedTextOld
            (purgeFromList s.newTextList (purgeFromList s.wrappedTextList ∅).2).2).1
        ++ (purgeFromList s.unloadedTextNew
            (purgeFromList s.unloadedTextOld
              (purgeFromList s.newTextList
                (purgeFromList s.wrappedTextList ∅).2).2).2).1 := rfl
  have hall2 : textIds (s.markWrap).allTexts
      = (textIds (purgeFromList s.wrappedTextList ∅).1
          ++ textIds (purgeFromList s.newTextList
              (purgeFromList s.wrappedTextList ∅).2).1)
        ++ (textIds (purgeFromList s.unloadedTextOld
              (purgeFromList s.newTextList (purgeFromList s.wrappedTextList ∅).2).2).1
            ++ textIds (purgeFromList s.unloadedTextNew
              (purgeFromList s.unloadedTextOld
                (purgeFromList s.newTextList
                  (purgeFromList s.wrappedTextList ∅).2).2).2).1) := by
    rw [hall]
    simp only [textIds_append, List.reverse_reverse, List.append_assoc]
  have hR : textIds s.allTexts
      = textIds s.wrappedTextList
        ++ (textIds s.newTextList
            ++ (textIds s.unloadedTextOld ++ textIds s.unloadedTextNew)) := by
    simp only [TextWrap.allTexts, textIds_append, List.append_assoc]
  have base := mergeFour_spec _ _ _ _ _ _ _ _ M1 M2 M3 M4 n1 n2 n3 n4
  exact ⟨by rw [hall2, hR]; exact base.1, by rw [hall2]; exact base.2⟩

/-- Characterization of the pop loop of `_get_lines_from_scroll` for a
non-negative scroll: it pops exactly `length - scroll` lines off the right
end of the deque (the head of the reversed list), rebuilding them in
original order in the accumulator and totalling their heights. -/
theorem linesPopGo_spec (rev : List Line) (k : Int) (hk : 0 ≤ k) :
    ∀ (acc : List Line) (h : Int),
      linesPopGo rev k acc h
        = (rev.drop (rev.length - k.toNat),
           (rev.take (rev.length - k.toNat)).reverse ++ acc,
           h + ((rev.take (rev.length - k.toNat)).map
                (fun l => (l.height : Int))).sum) := by
  induction rev with
  | nil => intro acc h; simp [linesPopGo]
  | cons x xs ih =>
    intro acc h
    by_cases hc : k < ((xs.length + 1 : Nat) : Int)
    · have hkn : k.toNat ≤ xs.length := by omega
      have hlen : (x :: xs).length - k.toNat = (xs.length - k.toNat) + 1 := by
        simp only [List.length_cons]
        omega
      rw [linesPopGo, if_pos hc, ih (x :: acc) (h + (x.height : Int)), hlen]
      rw [List.drop_succ_cons, List.take_succ_cons]
      simp only [List.reverse_cons, List.append_assoc, List.singleton_append,
        List.map_cons, List.sum_cons, Prod.mk.injEq]
      refine ⟨by first | rfl | trivial, by first | rfl | trivial, by ring⟩
    · rw [linesPopGo, if_neg hc]
      have hlen : (x :: xs).length - k.toNat = 0 := by
        simp only [List.length_cons]
        omega
      rw [hlen]
      simp

/-- Sum of coerced line heights is non-negative. -/
theorem heightsSum_nonneg (l : List Line) :
    0 ≤ (l.map (fun li => (li.height : Int))).sum := by
  refine List.sum_nonneg ?_
  intro x hx
  obtain ⟨li, _, rfl⟩ := List.mem_map.mp hx
  exact Int.ofNat_nonneg _

/-- Full description of `_get_lines_from_scroll` for an arbitrary state:
the scroll is first clamped to `k ∈ [0, len(lines)]`, the lines deque is
rebuilt unchanged, the returned window is the last `len - k` lines in
order, `current_height` is their height sum, and no other field moves. -/
theorem getLines_spec (s : TextWrap) :
    (s.getLinesFromScroll).2.lines = s.lines ∧
      (s.getLinesFromScroll).1
        = s.lines.drop (min ((s.lines.length : Nat) : Int) (max 0 s.scroll)).toNat ∧
      (s.getLinesFromScroll).2.currentHeight
        = ((s.lines.drop
            (min ((s.lines.length : Nat) : Int) (max 0 s.scroll)).toNat).map
              (fun l => (l.height : Int))).sum ∧
      (s.getLinesFromScroll).2.newTextList = s.newTextList ∧
      (s.getLinesFromScroll).2.wrappedTextList = s.wrappedTextList ∧
      (s.getLinesFromScroll).2.pos = s.pos ∧
      (s.getLinesFromScroll).2.scroll
        = min ((s.lines.length : Nat) : Int) (max 0 s.scroll) := by
  have hk0 : 0 ≤ min ((s.lines.length : Nat) : Int) (max 0 s.scroll) :=
    le_min (Int.ofNat_nonneg _) (le_max_left 0 _)
  have hdrop : s.lines.reverse.drop
      (s.lines.reverse.length
        - (min ((s.lines.length : Nat) : Int) (max 0 s.scroll)).toNat)
      = (s.lines.take
          (min ((s.lines.length : Nat) : Int) (max 0 s.scroll)).toNat).reverse := by
    rw [List.length_reverse, List.reverse_take]
  have htake : s.lines.reverse.take
      (s.lines.reverse.length
        - (min ((s.lines.length : Nat) : Int) (max 0 s.scroll)).toNat)
      = (s.lines.drop
          (min ((s.lines.length : Nat) : Int) (max 0 s.scroll)).toNat).reverse := by
    rw [List.length_reverse, List.reverse_drop]
  unfold TextWrap.getLinesFromScroll TextWrap.scrollReposition
  dsimp only
  rw [linesPopGo_spec _ _ hk0]
  simp only [hdrop, htake, List.reverse_reverse, List.append_nil, zero_add]
  refine ⟨List.take_append_drop _ _, by trivial,
    by rw [List.map_reverse, List.sum_reverse],
    by trivial, by trivial, by trivial, by trivial⟩

/-- C10: with the scroll in range, `_get_lines_from_scroll` leaves the
lines deque exactly as it was, returns the last `len(lines) - scroll`
lines in their original order, and sets `current_height` to the sum of
exactly the returned lines' heights. -/
theorem getLinesFromScroll_frame (s : TextWrap) (h0 : 0 ≤ s.scroll)
    (h1 : s.scroll ≤ ((s.lines.length : Nat) : Int)) :
    (s.getLinesFromScroll).2.lines = s.lines ∧
      (s.getLinesFromScroll).1 = s.lines.drop s.scroll.toNat ∧
      (s.getLinesFromScroll).2.currentHeight
        = ((s.lines.drop s.scroll.toNat).map (fun l => (l.height : Int))).sum := by
  obtain ⟨ha, hb, hc, _⟩ := getLines_spec s
  have hmin : min ((s.lines.length : Nat) : Int) (max 0 s.scroll) = s.scroll := by
    rw [max_eq_right h0, min_eq_right h1]
  rw [hmin] at hb hc
  exact ⟨ha, hb, hc⟩

/-- Witness for C10 at a concrete three-line buffer scrolled by one. -/
theorem getLinesFromScroll_frame_witness :
    (0 : Int) ≤ 1 ∧ (1 : Int) ≤ ((3 : Nat) : Int) ∧
      (let l1 : Line := { Line.empty with height := 5 }
       let l2 : Line := { Line.empty with height := 7 }
       let l3 : Line := { Line.empty with height := 11 }
       let s : TextWrap :=
        { wrappedTextList := [], newTextList := [], lines := [l1, l2, l3],
          unloadedTextOld := [], unloadedTextNew := [], currentHeight := 0,
          pos := (0, 0, 0, 0), scroll := 1, lockScroll := false }
       (s.getLinesFromScroll).2.lines = s.lines ∧
         (s.getLinesFromScroll).1 = s.lines.drop s.scroll.toNat ∧
         (s.getLinesFromScroll).2.currentHeight
           = ((s.lines.drop s.scroll.toNat).map (fun l => (l.height : Int))).sum) :=
  ⟨by norm_num, by norm_num,
    getLinesFromScroll_frame _ (by norm_num) (by norm_num)⟩

/-- C2 (amended): the `fit_text` loop completes within `len(queue)`
iterations — each iteration pops one queued text, and the push-back branch
immediately breaks — so fuel equal to the queue length always suffices and
the loop can never run forever, in particular not on a run that never
fits. -/
theorem fitTextFuel_completes (q : List Text) :
    ∀ (line : Line) (box : Int) (fuel : Nat), q.length ≤ fuel →
      Line.fitTextFuel fuel line q box = some (Line.fitText line q box) := by
  induction q with
  | nil => intro line box fuel _; simp [Line.fitTextFuel, Line.fitText]
  | cons t rest ih =>
    intro line box fuel h
    match fuel with
    | 0 =>
      simp at h
    | fuel + 1 =>
      have hr : rest.length ≤ fuel := by
        simp only [List.length_cons] at h
        omega
      rw [Line.fitTextFuel, Line.fitText]
      by_cases hnl : line.newLine
      · simp [hnl]
      · simp only [hnl, Bool.false_eq_true, if_false]
        by_cases hfit : ((line.width
            + ((t.setTextSegment (line.textSegments.lookup t.id)).getSize none).1 : Nat) : Int)
            ≤ box
        · simp only [hfit, if_true]
          by_cases hnl2 : (t.setTextSegment (line.textSegments.lookup t.id)).newLine
          · simp [hnl2]
          · simp only [hnl2, Bool.false_eq_true, if_false]
            rw [ih _ box fuel hr]
        · simp only [hfit, if_false]
          split <;> rfl

/-- Witness for the amended C2 at a concrete queue of two texts. -/
theorem fitTextFuel_completes_witness :
    ([mkText 1 "aaa", mkText 2 "bb"].length ≤ 2) ∧
      Line.fitTextFuel 2 Line.empty [mkText 1 "aaa", mkText 2 "bb"] 45
        = some (Line.fitText Line.empty [mkText 1 "aaa", mkText 2 "bb"] 45) :=
  ⟨by decide, fitTextFuel_completes [mkText 1 "aaa", mkText 2 "bb"]
    Line.empty 45 2 (by decide)⟩

/-- C2 counterexample: a queue holding one empty-string text has zero
total characters, yet the `fit_text` loop needs one iteration — with fuel
equal to the number of characters the loop is not finished, so "terminates
in a number of steps bounded by the total number of characters" fails
(the correct bound is the number of queued texts). -/
theorem fitText_charBound_cex :
    (Line.fitTextFuel (textsTotalChars [mkText 1 ""]) Line.empty
        [mkText 1 ""] 5).isSome = false
      ∧ textsTotalChars [mkText 1 ""] = 0
      ∧ (Line.fitTextFuel 1 Line.empty [mkText 1 ""] 5).isSome = true := by
  decide

/-- The pop loop on an empty deque returns immediately. -/
theorem linesPopGo_nil (k : Int) (acc : List Line) (h : Int) :
    linesPopGo [] k acc h = ([], acc, h) := rfl

/-- `_wrap_new_lines` is a no-op whenever the materialized height already
reaches the viewport height (its guard fails), for any fuel. -/
theorem wrapNewLines_skip (fuel : Nat) (s : TextWrap)
    (h : ¬ s.currentHeight < posH s.pos) :
    s.wrapNewLines fuel = some s := by
  unfold TextWrap.wrapNewLines
  rw [if_neg]
  rintro ⟨-, hc⟩
  exact h hc

/-- The final drawing loop emits nothing when the viewport height is
non-positive and every line to draw has positive height. -/
theorem drawLinesGo_nil (pos : Int × Int × Int × Int) (ls : List Line)
    (hh : posH pos ≤ 0) (hl : ∀ l ∈ ls, 0 < l.height) :
    drawLinesGo pos ls (posY pos) = [] := by
  cases ls with
  | nil => rfl
  | cons l rest =>
    rw [drawLinesGo, if_neg]
    have := hl l (List.mem_cons_self l rest)
    omega

/-- C7 (amended): a render pass with viewport height 0 is degenerate as the
spec says: nothing is wrapped, nothing is drawn (given lines of positive
height), and the pending text and the lines are retained.  (The claim's
width-0 half fails — see the counterexample — because `_wrap_new_lines`
only consults the viewport height, so a 0-width, positive-height pass
still wraps, force-splitting every pending text to emptiness.) -/
theorem render_zeroHeight_retains (s : TextWrap) (fuel : Nat) (x y w : Int)
    (hl : ∀ l ∈ s.lines, 0 < l.height) :
    ∃ s', TextWrap.render fuel s (x, y, w, 0) = some (s', ([] : List DrawCmd))
      ∧ s'.newTextList = s.newTextList ∧ s'.lines = s.lines
      ∧ s'.wrappedTextList = s.wrappedTextList := by
  obtain ⟨g1l, g1r, g1h, g1n, g1w, g1p, g1s⟩ :=
    getLines_spec { s with pos := (x, y, w, 0) }
  have hch : 0 ≤ (({ s with pos := (x, y, w, 0)} : TextWrap).getLinesFromScroll).2.currentHeight := by
    rw [g1h]
    exact heightsSum_nonneg _
  have hpos2 : (({ s with pos := (x, y, w, 0)} : TextWrap).getLinesFromScroll).2.pos
      = (x, y, w, 0) := g1p
  have hwrap : (({ s with pos := (x, y, w, 0)} : TextWrap).getLinesFromScroll).2.wrapNewLines fuel
      = some (({ s with pos := (x, y, w, 0)} : TextWrap).getLinesFromScroll).2 := by
    refine wrapNewLines_skip fuel _ ?_
    rw [hpos2]
    show ¬ _ < (0 : Int)
    omega
  obtain ⟨g2l, g2r, g2h, g2n, g2w, g2p, g2s⟩ :=
    getLines_spec (({ s with pos := (x, y, w, 0)} : TextWrap).getLinesFromScroll).2
  refine ⟨((({ s with pos := (x, y, w, 0)} : TextWrap).getLinesFromScroll).2.getLinesFromScroll).2,
    ?_, ?_, ?_, ?_⟩
  · show (match (({ s with pos := (x, y, w, 0)} : TextWrap).getLinesFromScroll).2.wrapNewLines fuel with
      | none => none
      | some s3 =>
          let gl := s3.getLinesFromScroll
          some (gl.2, drawLinesGo gl.2.pos gl.1 (posY gl.2.pos))) = _
    rw [hwrap]
    dsimp only
    have hdraw : drawLinesGo
        ((((({ s with pos := (x, y, w, 0)} : TextWrap).getLinesFromScroll).2).getLinesFromScroll).2.pos)
        (((({ s with pos := (x, y, w, 0)} : TextWrap).getLinesFromScroll).2).getLinesFromScroll).1
        (posY (((({ s with pos := (x, y, w, 0)} : TextWrap).getLinesFromScroll).2).getLinesFromScroll).2.pos)
        = [] := by
      rw [g2p, hpos2]
      refine drawLinesGo_nil _ _ (by norm_num [posH]) ?_
      intro l hli
      refine hl l ?_
      rw [g2r] at hli
      have hsub := List.drop_subset
        ((min (((({ s with pos := (x, y, w, 0)} : TextWrap).getLinesFromScroll).2.lines.length : Nat) : Int)
          (max 0 (({ s with pos := (x, y, w, 0)} : TextWrap).getLinesFromScroll).2.scroll)).toNat)
        (({ s with pos := (x, y, w, 0)} : TextWrap).getLinesFromScroll).2.lines
      have hmem := hsub hli
      rw [g1l] at hmem
      exact hmem
    rw [hdraw]
  · rw [g2n, g1n]
  · rw [g2l, g1l]
  · rw [g2w, g1w]

/-- C7 counterexample: with viewport width 0 but height 10, a render pass
is not degenerate: the single pending text is consumed (force-split down
to an empty segment and moved to `wrapped_text_list`), a line is appended,
and the pending queue is left empty instead of retained. -/
theorem render_zeroWidth_cex :
    (let s0 : TextWrap :=
      { wrappedTextList := [], newTextList := [mkText 1 "ab"], lines := [],
        unloadedTextOld := [], unloadedTextNew := [], currentHeight := 0,
        pos := (0, 0, 0, 0), scroll := 0, lockScroll := false }
     (TextWrap.render 3 s0 (0, 0, 0, 10)).map
        (fun r => (r.1.newTextList.length, r.1.lines.length,
                   r.1.wrappedTextList.map (fun t => (t.id, t.textSegment))))
       = some (0, 1, [(1, "")])
     ∧ s0.newTextList.length = 1) := by
  constructor
  · rfl
  · rfl

/-- Witness for the amended C7 at a concrete one-line buffer with pending
text and a zero-height viewport. -/
theorem render_zeroHeight_retains_witness :
    (let s : TextWrap :=
      { wrappedTextList := [], newTextList := [mkText 1 "ab"],
        lines := [{ Line.empty with height := 5 }],
        unloadedTextOld := [], unloadedTextNew := [], currentHeight := 0,
        pos := (0, 0, 0, 0), scroll := 0, lockScroll := false }
     (∀ l ∈ s.lines, 0 < l.height) ∧
       ∃ s', TextWrap.render 1 s (0, 0, 7, 0) = some (s', ([] : List DrawCmd))
         ∧ s'.newTextList = s.newTextList ∧ s'.lines = s.lines
         ∧ s'.wrappedTextList = s.wrappedTextList) :=
  ⟨by decide, render_zeroHeight_retains _ 1 0 0 7 (by decide)⟩

/-- C6 (amended): when the measurer raises while fitting the first pending
text, the exception does propagate out of `render` (nothing catches it),
but the buffer is NOT left as it was: the text popped by the failing
`fit_text` call is gone from `new_text_list` (and the first
`_get_lines_from_scroll` has already reset `current_height` and clamped
the scroll), so a retry does not see the old state. -/
theorem renderE_measureFail_state (m : MeasE) (t : Text)
    (ts wtl uo un : List Text) (ch : Int) (p0 : Int × Int × Int × Int)
    (sc : Int) (lk : Bool) (fuel : Nat) (x y w h : Int)
    (hm : m t.textSegment = none) (hh : 0 < h) :
    TextWrap.renderE (fuel + 1) m
      { wrappedTextList := wtl, newTextList := t :: ts, lines := [],
        unloadedTextOld := uo, unloadedTextNew := un, currentHeight := ch,
        pos := p0, scroll := sc, lockScroll := lk } (x, y, w, h)
      = some (.error
        { wrappedTextList := wtl, newTextList := ts, lines := [],
          unloadedTextOld := uo, unloadedTextNew := un, currentHeight := 0,
          pos := (x, y, w, h), scroll := 0, lockScroll := lk }) := by
  have hsc : min ((([] : List Line).length : Nat) : Int) (max 0 sc) = 0 := by
    simp only [List.length_nil, Nat.cast_zero]
    exact min_eq_left (le_max_left 0 sc)
  unfold TextWrap.renderE TextWrap.getLinesFromScroll TextWrap.scrollReposition
  dsimp only
  rw [hsc]
  simp only [List.reverse_nil, linesPopGo_nil, List.append_nil]
  unfold TextWrap.wrapNewLinesE TextWrap.nextLine
  simp only [List.getLast?_nil]
  try dsimp only
  rw [if_pos ⟨rfl, hh⟩]
  unfold TextWrap.wrapLoopE
  rw [if_neg (by simp)]
  unfold Line.fitTextE Text.getSizeE
  simp only [Line.empty]
  simp only [show List.lookup t.id ([] : List (Nat × String)) = none from rfl,
    Bool.false_eq_true, if_false]
  simp only [Text.setTextSegment, Option.getD]
  rw [hm]

/-- C6 counterexample: with a measurer that raises, `render` propagates the
exception, but the buffer is not left unchanged — the pending text that
the failing pass popped is lost (`new_text_list` went from one text to
none), so the claimed untouched-state/idempotent-retry property is false. -/
theorem renderE_fail_cex :
    (let s0 : TextWrap :=
      { wrappedTextList := [], newTextList := [mkText 1 "ab"], lines := [],
        unloadedTextOld := [], unloadedTextNew := [], currentHeight := 0,
        pos := (0, 0, 0, 0), scroll := 0, lockScroll := false }
     (match TextWrap.renderE 3 failMeas s0 (0, 0, 100, 100) with
       | some (Except.error s1) => some (s1.newTextList.length, s1.lines.length)
       | _ => none) = some (0, 0)
     ∧ s0.newTextList.length = 1) := by
  constructor
  · rfl
  · rfl

/-- Witness for the amended C6 at a concrete failing measurer and state. -/
theorem renderE_measureFail_state_witness :
    failMeas (mkText 1 "ab").textSegment = none ∧ (0 : Int) < 10 ∧
      TextWrap.renderE 1 failMeas
        { wrappedTextList := [], newTextList := [mkText 1 "ab"], lines := [],
          unloadedTextOld := [], unloadedTextNew := [], currentHeight := 5,
          pos := (0, 0, 0, 0), scroll := 2, lockScroll := false } (0, 0, 100, 10)
        = some (.error
          { wrappedTextList := [], newTextList := [], lines := [],
            unloadedTextOld := [], unloadedTextNew := [], currentHeight := 0,
            pos := (0, 0, 100, 10), scroll := 0, lockScroll := false }) :=
  ⟨rfl, by norm_num,
    renderE_measureFail_state failMeas (mkText 1 "ab") [] [] [] [] 5 (0, 0, 0, 0)
      2 false 0 0 0 100 10 rfl (by norm_num)⟩

/-- The fold behind `sorted(keys, ...)[0]` returns one of the keys. -/
theorem minSplitKey_mem (cs : List Char) : ∀ c, minSplitKey c cs ∈ c :: cs := by
  induction cs with
  | nil => intro c; simp [minSplitKey]
  | cons x xs ih =>
    intro c
    have h := ih (if splitCharsSort x < splitCharsSort c then x else c)
    simp only [minSplitKey, List.foldl_cons] at h ⊢
    rcases List.mem_cons.mp h with h1 | h1
    · rw [h1]
      by_cases hx : splitCharsSort x < splitCharsSort c
      · rw [if_pos hx]
        exact List.mem_cons_of_mem _ (List.mem_cons_self _ _)
      · rw [if_neg hx]
        exact List.mem_cons_self _ _
    · exact List.mem_cons_of_mem _ (List.mem_cons_of_mem _ h1)

/-- The fold behind `sorted(keys, ...)[0]` is minimal for the priority
index among all the keys. -/
theorem minSplitKey_le (cs : List Char) :
    ∀ c, ∀ x ∈ c :: cs, splitCharsSort (minSplitKey c cs) ≤ splitCharsSort x := by
  induction cs with
  | nil =>
    intro c x hx
    rcases List.mem_cons.mp hx with h1 | h1
    · rw [h1]; exact le_refl _
    · exact absurd h1 (List.not_mem_nil x)
  | cons y ys ih =>
    intro c x hx
    have hstep : minSplitKey c (y :: ys)
        = minSplitKey (if splitCharsSort y < splitCharsSort c then y else c) ys := by
      simp only [minSplitKey, List.foldl_cons]
    have hite_le_c : splitCharsSort (if splitCharsSort y < splitCharsSort c then y else c)
        ≤ splitCharsSort c := by
      by_cases hy : splitCharsSort y < splitCharsSort c
      · rw [if_pos hy]; omega
      · rw [if_neg hy]
    have hite_le_y : splitCharsSort (if splitCharsSort y < splitCharsSort c then y else c)
        ≤ splitCharsSort y := by
      by_cases hy : splitCharsSort y < splitCharsSort c
      · rw [if_pos hy]
      · rw [if_neg hy]; omega
    have hself := ih (if splitCharsSort y < splitCharsSort c then y else c) _
      (List.mem_cons_self _ _)
    rw [hstep]
    rcases List.mem_cons.mp hx with h1 | h1
    · rw [h1]; omega
    · rcases List.mem_cons.mp h1 with h2 | h2
      · rw [h2]; omega
      · exact ih _ x (List.mem_cons_of_mem _ h2)

/-- Membership in the dict after an insertion: the element is the newly
written binding or one that was already there. -/
theorem insertPoint_mem (m : List (Char × String × String)) (c : Char)
    (v : String × String) : ∀ q ∈ insertPoint m c v, q = (c, v) ∨ q ∈ m := by
  intro q hq
  unfold insertPoint at hq
  by_cases hc : m.any (fun p => p.1 == c) = true
  · rw [if_pos hc] at hq
    obtain ⟨p, hp, hpq⟩ := List.mem_map.mp hq
    by_cases hpc : (p.1 == c) = true
    · rw [if_pos hpc] at hpq
      left; rw [← hpq]
    · rw [if_neg hpc] at hpq
      right; rw [← hpq]; exact hp
  · rw [if_neg hc] at hq
    rcases List.mem_append.mp hq with h | h
    · right; exact h
    · left
      rw [List.mem_singleton] at h
      exact h

/-- The sanity property every collected split candidate has: its key is a
configured break character, and its fitted part is empty or measures
within the remaining width. -/
def PointOK (t : Text) (remaining : Int) (q : Char × String × String) : Prop :=
  q.1 ∈ SPLIT_CHARS_ALL ∧ (q.2.1 = "" ∨ ((t.font.size q.2.1).1 : Int) ≤ remaining)

/-- The candidate scan only adds `PointOK` entries. -/
theorem splitScanGo_pointOK (t : Text) (remaining box : Int) :
    ∀ (l : List (Nat × Char)) (m : List (Char × String × String)),
      (∀ q ∈ m, PointOK t remaining q) →
      ∀ q ∈ splitScanGo t remaining box l m, PointOK t remaining q := by
  intro l
  induction l with
  | nil => intro m hm q hq; exact hm q hq
  | cons hd rest ih =>
    obtain ⟨ind, ch⟩ := hd
    intro m hm q hq
    simp only [splitScanGo] at hq
    by_cases h1 : ch ∈ SPLIT_CHARS_AFTER
    · rw [if_pos h1] at hq
      by_cases h2 : ((t.font.size (t.textSegment.take (ind + 1))).1 : Int) ≤ remaining
      · rw [if_pos h2] at hq
        refine ih _ ?_ q hq
        intro q2 hq2
        by_cases h3 : ch ∈ SPLIT_CHARS_ALL ∧ ch ≠ 'N'
        · rw [if_pos h3] at hq2
          rcases insertPoint_mem _ _ _ q2 hq2 with h4 | h4
          · rw [h4]
            exact ⟨h3.1, Or.inr h2⟩
          · exact hm q2 h4
        · rw [if_neg h3] at hq2
          exact hm q2 hq2
      · rw [if_neg h2] at hq
        exact hm q hq
    · rw [if_neg h1] at hq
      by_cases h0 : ind = 0 ∧ remaining = box
      · rw [if_pos h0] at hq
        exact ih _ hm q hq
      · rw [if_neg h0] at hq
        by_cases h2 : ((t.font.size (t.textSegment.take ind)).1 : Int) ≤ remaining
        · rw [if_pos h2] at hq
          refine ih _ ?_ q hq
          intro q2 hq2
          by_cases h3 : ch ∈ SPLIT_CHARS_ALL ∧ ch ≠ 'N'
          · rw [if_pos h3] at hq2
            rcases insertPoint_mem _ _ _ q2 hq2 with h4 | h4
            · rw [h4]
              exact ⟨h3.1, Or.inr h2⟩
            · exact hm q2 h4
          · rw [if_neg h3] at hq2
            exact hm q2 hq2
        · rw [if_neg h2] at hq
          exact hm q hq

/-- Every entry of `possible_split_points` is `PointOK`. -/
theorem splitPoints_pointOK (t : Text) (remaining box : Int) :
    ∀ q ∈ splitPoints t remaining box, PointOK t remaining q := by
  intro q hq
  unfold splitPoints at hq
  refine splitScanGo_pointOK t remaining box _ _ ?_ q hq
  intro q2 hq2
  by_cases hN : remaining < box ∧ 'N' ∈ SPLIT_CHARS_ALL
  · rw [if_pos hN] at hq2
    rw [List.mem_singleton] at hq2
    rw [hq2]
    exact ⟨show ('N' : Char) ∈ SPLIT_CHARS_ALL by decide, Or.inl rfl⟩
  · rw [if_neg hN] at hq2
    exact absurd hq2 (List.not_mem_nil _)

/-- A split-after character sits in the first block of the combined
priority list, so its index is below the block boundary. -/
theorem splitCharsSort_after_lt (c : Char) (h : c ∈ SPLIT_CHARS_AFTER) :
    splitCharsSort c < SPLIT_CHARS_AFTER.length := by
  unfold splitCharsSort SPLIT_CHARS_ALL
  rw [List.indexOf_append_of_mem h]
  exact List.indexOf_lt_length.mpr h

/-- A configured character outside the split-after block has an index at
or past the block boundary. -/
theorem splitCharsSort_not_after_ge (c : Char) (h : c ∉ SPLIT_CHARS_AFTER) :
    SPLIT_CHARS_AFTER.length ≤ splitCharsSort c := by
  unfold splitCharsSort SPLIT_CHARS_ALL
  rw [List.indexOf_append_of_not_mem h]
  omega

/-- C3: whenever `split` has at least one break candidate, the returned
segments are those recorded for some candidate character whose priority
index (`_split_chars_sort`) is minimal among all candidate characters —
the choice is by the fixed class priority, not by position in the string —
and in particular a split-before character can only win when no
split-after candidate exists at all. -/
theorem split_priority (t : Text) (remaining box : Int)
    (hne : splitPoints t remaining box ≠ []) :
    ∃ c, (c, (t.split remaining box).2) ∈ splitPoints t remaining box
      ∧ (∀ c2 ∈ (splitPoints t remaining box).map Prod.fst,
          splitCharsSort c ≤ splitCharsSort c2)
      ∧ (c ∉ SPLIT_CHARS_AFTER →
          ∀ c2 ∈ (splitPoints t remaining box).map Prod.fst,
            c2 ∉ SPLIT_CHARS_AFTER) := by
  cases hsp : splitPoints t remaining box with
  | nil => exact absurd hsp hne
  | cons p ps =>
    have hc0mem : minSplitKey p.1 (ps.map Prod.fst) ∈ (p :: ps).map Prod.fst := by
      rw [List.map_cons]
      exact minSplitKey_mem (ps.map Prod.fst) p.1
    obtain ⟨q, hq_mem, hq_eq⟩ := List.mem_map.mp hc0mem
    cases hfind : (p :: ps).find?
        (fun q2 => q2.1 == minSplitKey p.1 (ps.map Prod.fst)) with
    | none =>
      exfalso
      have := List.find?_eq_none.mp hfind q hq_mem
      rw [hq_eq] at this
      simp at this
    | some q0 =>
      have hq0mem : q0 ∈ p :: ps := List.mem_of_find?_eq_some hfind
      have hq0c : q0.1 = minSplitKey p.1 (ps.map Prod.fst) := by
        have := List.find?_some hfind
        exact eq_of_beq this
      have hval : (t.split remaining box).2 = q0.2 := by
        unfold Text.split
        rw [hsp]
        dsimp only
        rw [hfind]
        rfl
      refine ⟨minSplitKey p.1 (ps.map Prod.fst), ?_, ?_, ?_⟩
      · rw [hval, ← hq0c, Prod.mk.eta]
        exact hq0mem
      · intro c2 hc2
        rw [List.map_cons] at hc2
        exact minSplitKey_le (ps.map Prod.fst) p.1 c2 hc2
      · intro hcafter c2 hc2 hc2after
        have hle := minSplitKey_le (ps.map Prod.fst) p.1 c2
          (by rw [List.map_cons] at hc2; exact hc2)
        have h1 := splitCharsSort_after_lt c2 hc2after
        have h2 := splitCharsSort_not_after_ge _ hcafter
        omega

/-- Witness for C3: in `"a (b"` at a fresh line of width 100, both the
space (split-after) and the bracket (split-before) are candidates, and the
space wins. -/
theorem split_priority_witness :
    splitPoints (mkText 1 "a (b") 100 100 ≠ [] ∧
      (∃ c, (c, ((mkText 1 "a (b").split 100 100).2)
          ∈ splitPoints (mkText 1 "a (b") 100 100
        ∧ (∀ c2 ∈ (splitPoints (mkText 1 "a (b") 100 100).map Prod.fst,
            splitCharsSort c ≤ splitCharsSort c2)
        ∧ (c ∉ SPLIT_CHARS_AFTER →
            ∀ c2 ∈ (splitPoints (mkText 1 "a (b") 100 100).map Prod.fst,
              c2 ∉ SPLIT_CHARS_AFTER)) :=
  ⟨by decide, split_priority (mkText 1 "a (b") 100 100 (by decide)⟩

/-- The running `best_ind` update of the `_force_split` scan, folded over a
list of visited indices. -/
def bupdFold (l : List Nat) (best : Option Nat) : Option Nat :=
  l.foldl (fun acc ind => if 0 < ind then some (ind - 1) else acc) best

/-- When no visited prefix overflows, the scan runs to the end with the
folded `best_ind` and no clearing. -/
theorem forceScanGo_no_overflow (t : Text) (remaining box : Int) :
    ∀ (l : List Nat) (best : Option Nat),
      (∀ j ∈ l, ¬ remaining < t.markerWidth j) →
      forceScanGo t remaining box l best = (bupdFold l best, false) := by
  intro l
  induction l with
  | nil => intro best _; rfl
  | cons j rest ih =>
    intro best h
    simp only [forceScanGo]
    rw [if_neg (h j (List.mem_cons_self _ _))]
    rw [ih _ (fun x hx => h x (List.mem_cons_of_mem _ hx))]
    simp [bupdFold, List.foldl_cons]

/-- The scan stops at the first overflowing index, with `best_ind` as
accumulated up to there and the clearing flag exactly in the
`ind == 0 and remaining == box` case. -/
theorem forceScanGo_break (t : Text) (remaining box : Int) :
    ∀ (l1 : List Nat) (j : Nat) (l2 : List Nat) (best : Option Nat),
      (∀ i ∈ l1, ¬ remaining < t.markerWidth i) →
      remaining < t.markerWidth j →
      forceScanGo t remaining box (l1 ++ j :: l2) best
        = ((if 0 < j then some (j - 1) else bupdFold l1 best),
           decide (j = 0 ∧ remaining = box)) := by
  intro l1
  induction l1 with
  | nil =>
    intro j l2 best _ hov
    simp only [List.nil_append, forceScanGo]
    rw [if_pos hov]
    rfl
  | cons i rest ih =>
    intro j l2 best h hov
    rw [List.cons_append]
    simp only [forceScanGo]
    rw [if_neg (h i (List.mem_cons_self _ _))]
    rw [ih j l2 _ (fun x hx => h x (List.mem_cons_of_mem _ hx)) hov]
    simp [bupdFold, List.foldl_cons]

/-- The folded `best_ind` over a full index range starting from `None`:
`None` while at most one index was visited, else the second-to-last
index. -/
theorem bupdFold_range (n : Nat) :
    bupdFold (List.range n) none = if n ≤ 1 then none else some (n - 2) := by
  induction n with
  | zero => rfl
  | succ n ih =>
    unfold bupdFold at ih ⊢
    rw [List.range_succ, List.foldl_append, ih]
    simp only [List.foldl_cons, List.foldl_nil]
    rcases Nat.eq_zero_or_pos n with h0 | h0
    · subst h0; rfl
    · rw [if_pos h0, if_neg (show ¬ n + 1 ≤ 1 from by omega)]
      simp only [Option.some.injEq]
      omega

/-- `range n` split at an interior index. -/
theorem range_decompose (j n : Nat) (h : j < n) :
    List.range n = List.range j ++ j :: List.range' (j + 1) (n - j - 1) := by
  have h1 : List.range' j (n - j) = j :: List.range' (j + 1) (n - j - 1) := by
    conv_lhs => rw [show n - j = (n - j - 1) + 1 from by omega]
    rw [List.range'_succ]
  rw [← h1, List.range_eq_range' n, List.range_eq_range' j]
  have h2 := List.range'_append 0 j (n - j) 1
  rw [show (0 + 1 * j) = j from by omega] at h2
  rw [h2, show n - j + j = n from by omega]

/-- `_force_split` when the very first character plus marker already
overflows: the fitted part is empty; on a fresh line
(`remaining == box`) the leftover is empty too (the content is
discarded), otherwise the leftover is the whole segment. -/
theorem forceSplit_break0 (t : Text) (remaining box : Int)
    (hn : 0 < t.textSegment.length) (hov : remaining < t.markerWidth 0) :
    t.forceSplit remaining box
      = ({ t with textSegment := "" }, "",
         if remaining = box then "" else t.textSegment) := by
  have hscan : forceScanGo t remaining box
      (List.range t.textSegment.length) none
      = (none, decide (remaining = box)) := by
    rw [range_decompose 0 t.textSegment.length hn, List.range_zero]
    rw [forceScanGo_break t remaining box [] 0 _ none
      (fun i hi => absurd hi (List.not_mem_nil i)) hov]
    norm_num [bupdFold]
  unfold Text.forceSplit
  rw [hscan]
  by_cases hrb : remaining = box
  · simp [hrb]
  · simp [hrb]

/-- `_force_split` when the first overflow happens at an index `j ≥ 1`:
the fitted part is the `j`-character prefix plus the marker, the leftover
is the rest. -/
theorem forceSplit_breakj (t : Text) (remaining box : Int) (j : Nat)
    (hj : j < t.textSegment.length) (h0 : 0 < j)
    (hov : remaining < t.markerWidth j)
    (hmin : ∀ i, i < j → ¬ remaining < t.markerWidth i) :
    t.forceSplit remaining box
      = ({ t with textSegment := t.textSegment.take j ++ "-" },
         t.textSegment.take j ++ "-", t.textSegment.drop j) := by
  have hscan : forceScanGo t remaining box
      (List.range t.textSegment.length) none = (some (j - 1), false) := by
    rw [range_decompose j t.textSegment.length hj]
    rw [forceScanGo_break t remaining box (List.range j) j _ none
      (fun i hi => hmin i (List.mem_range.mp hi)) hov]
    rw [if_pos h0, decide_eq_false (by omega : ¬ (j = 0 ∧ remaining = box))]
  unfold Text.forceSplit
  rw [hscan]
  dsimp only
  rw [show j - 1 + 1 = j from by omega]

/-- `_force_split` when no prefix-plus-marker overflows: for segments of
at most one character everything defers; otherwise the scan stops one
character early, fitting all but the last character (plus marker) and
leaving the last character over. -/
theorem forceSplit_nobreak (t : Text) (remaining box : Int)
    (hall : ∀ j, j < t.textSegment.length → ¬ remaining < t.markerWidth j) :
    t.forceSplit remaining box
      = if t.textSegment.length ≤ 1 then
          ({ t with textSegment := "" }, "", t.textSegment)
        else
          ({ t with textSegment :=
              t.textSegment.take (t.textSegment.length - 1) ++ "-" },
           t.textSegment.take (t.textSegment.length - 1) ++ "-",
           t.textSegment.drop (t.textSegment.length - 1)) := by
  have hscan : forceScanGo t remaining box
      (List.range t.textSegment.length) none
      = (if t.textSegment.length ≤ 1 then none
          else some (t.textSegment.length - 2), false) := by
    rw [forceScanGo_no_overflow t remaining box _ none
      (fun j hj => hall j (List.mem_range.mp hj))]
    rw [bupdFold_range]
  by_cases hn : t.textSegment.length ≤ 1
  · rw [if_pos hn] at hscan
    rw [if_pos hn]
    unfold Text.forceSplit
    rw [hscan]
    simp
  · rw [if_neg hn] at hscan
    rw [if_neg hn]
    unfold Text.forceSplit
    rw [hscan]
    dsimp only
    rw [show t.textSegment.length - 2 + 1 = t.textSegment.length - 1 from by omega]

/-- C8 (amended): when no break candidate exists, `split` defers to
`_force_split`, whose output is: (a) if even the first character plus the
hyphen marker overflows the remaining width, the fitted part is empty, and
the leftover is empty too on a fresh line (`remaining == box` — the
content is discarded, not deferred) while off a fresh line the whole
segment defers; (b) if the first overflow happens at index `j ≥ 1`, the
fitted part is the `j`-character prefix plus marker (the longest fitting
prefix, under a prefix-monotone measurer) and the leftover is the rest;
(c) if nothing overflows, a segment of at most one character defers whole,
and a longer one fits only its first `len-1` characters plus marker — one
character short of the claim's "longest prefix". -/
theorem split_force_characterization (t : Text) (remaining box : Int)
    (hno : splitPoints t remaining box = []) :
    t.split remaining box = t.forceSplit remaining box
    ∧ (0 < t.textSegment.length → remaining < t.markerWidth 0 →
        remaining = box → (t.split remaining box).2 = ("", ""))
    ∧ (0 < t.textSegment.length → remaining < t.markerWidth 0 →
        remaining ≠ box → (t.split remaining box).2 = ("", t.textSegment))
    ∧ (∀ j, 0 < j → j < t.textSegment.length → remaining < t.markerWidth j →
        (∀ i, i < j → ¬ remaining < t.markerWidth i) →
        (t.split remaining box).2
          = (t.textSegment.take j ++ "-", t.textSegment.drop j))
    ∧ ((∀ j, j < t.textSegment.length → ¬ remaining < t.markerWidth j) →
        t.textSegment.length ≤ 1 →
        (t.split remaining box).2 = ("", t.textSegment))
    ∧ ((∀ j, j < t.textSegment.length → ¬ remaining < t.markerWidth j) →
        2 ≤ t.textSegment.length →
        (t.split remaining box).2
          = (t.textSegment.take (t.textSegment.length - 1) ++ "-",
             t.textSegment.drop (t.textSegment.length - 1))) := by
  have heq : t.split remaining box = t.forceSplit remaining box := by
    unfold Text.split
    rw [hno]
  refine ⟨heq, ?_, ?_, ?_, ?_, ?_⟩
  · intro hn hov hrb
    rw [heq, forceSplit_break0 t remaining box hn hov]
    simp [hrb]
  · intro hn hov hrb
    rw [heq, forceSplit_break0 t remaining box hn hov]
    simp [hrb]
  · intro j h0 hj hov hmin
    rw [heq, forceSplit_breakj t remaining box j hj h0 hov hmin]
  · intro hall hn
    rw [heq, forceSplit_nobreak t remaining box hall, if_pos hn]
  · intro hall hn
    rw [heq, forceSplit_nobreak t remaining box hall, if_neg (by omega)]

/-- C8 counterexample: `"ab"` on a fresh line of width 15 (so `"a-"`, of
width 20, cannot fit) has no break candidate; the claim says the entire
remaining content is returned as leftover for the next line, but the code
returns an empty leftover — the content is discarded. -/
theorem split_freshLine_discard_cex :
    splitPoints (mkText 1 "ab") 15 15 = []
    ∧ ((mkText 1 "ab").split 15 15).2 = ("", "")
    ∧ ((mkText 1 "ab").split 15 15).2.2 ≠ (mkText 1 "ab").allText := by
  refine ⟨by decide, by decide, by decide⟩

/-- Witness for the amended C8 at the fresh-line-discard case. -/
theorem split_force_characterization_witness :
    splitPoints (mkText 1 "ab") 15 15 = [] ∧
      0 < (mkText 1 "ab").textSegment.length ∧
      (15 : Int) < (mkText 1 "ab").markerWidth 0 ∧
      ((mkText 1 "ab").split 15 15).2 = ("", "") :=
  ⟨by decide, by decide, by decide,
    (split_force_characterization (mkText 1 "ab") 15 15 (by decide)).2.1
      (by decide) (by decide) rfl⟩

/-- `List.lookup` through one cons cell, as an `if`. -/
theorem lookup_cons (a k : Nat) (v : String) (es : List (Nat × String)) :
    List.lookup a ((k, v) :: es)
      = if (a == k) = true then some v else List.lookup a es := by
  rw [List.lookup]
  by_cases h : (a == k) = true
  · rw [if_pos h, h]
  · rw [if_neg h, show (a == k) = false from by simpa using h]

/-- Unfolding the dict assignment over a cons cell. -/
theorem upsertSegment_cons (k : Nat) (v : String) (rest : List (Nat × String))
    (tid : Nat) (seg : String) :
    upsertSegment ((k, v) :: rest) tid seg
      = if (k == tid) = true then
          (tid, seg) :: rest.map (fun p => if p.1 == tid then (tid, seg) else p)
        else (k, v) :: upsertSegment rest tid seg := by
  by_cases hk : (k == tid) = true
  · rw [if_pos hk]
    unfold upsertSegment
    rw [if_pos (by simp [List.any_cons, hk])]
    rw [List.map_cons, if_pos hk]
  · rw [if_neg hk]
    unfold upsertSegment
    by_cases hr : rest.any (fun p => p.1 == tid) = true
    · rw [if_pos (by simp [List.any_cons, hk, hr]), if_pos hr]
      rw [List.map_cons, if_neg hk]
    · rw [if_neg (by simp [List.any_cons, hk, hr]), if_neg hr]
      simp

/-- Looking up the assigned key after a dict assignment yields the new
value. -/
theorem upsert_lookup_self (l : List (Nat × String)) (tid : Nat) (seg : String) :
    (upsertSegment l tid seg).lookup tid = some seg := by
  induction l with
  | nil =>
    unfold upsertSegment
    simp [List.lookup]
  | cons p rest ih =>
    obtain ⟨k, v⟩ := p
    rw [upsertSegment_cons]
    by_cases hk : (k == tid) = true
    · rw [if_pos hk, lookup_cons, if_pos (by simp)]
    · rw [if_neg hk, lookup_cons]
      rw [if_neg (show ¬ (tid == k) = true from by
        intro h
        apply hk
        have h2 := eq_of_beq h
        rw [h2]
        simp)]
      exact ih

/-- Rewriting the entries at one key leaves lookups at other keys alone. -/
theorem lookup_map_preserve (rest : List (Nat × String)) (tid tid2 : Nat)
    (seg : String) (hne : tid2 ≠ tid) :
    (rest.map (fun p => if p.1 == tid then (tid, seg) else p)).lookup tid2
      = rest.lookup tid2 := by
  induction rest with
  | nil => rfl
  | cons p rs ih =>
    obtain ⟨k, v⟩ := p
    by_cases hk : (k == tid) = true
    · have hk2 := eq_of_beq hk
      subst hk2
      rw [List.map_cons, if_pos hk, lookup_cons, lookup_cons]
      rw [if_neg (show ¬ (tid2 == k) = true from fun h => hne (eq_of_beq h)),
        if_neg (show ¬ (tid2 == k) = true from fun h => hne (eq_of_beq h))]
      exact ih
    · rw [List.map_cons, if_neg hk, lookup_cons, lookup_cons]
      by_cases h2 : (tid2 == k) = true
      · rw [if_pos h2, if_pos h2]
      · rw [if_neg h2, if_neg h2]
        exact ih

/-- A dict assignment leaves lookups at other keys alone. -/
theorem upsert_lookup_other (l : List (Nat × String)) (tid tid2 : Nat)
    (seg : String) (hne : tid2 ≠ tid) :
    (upsertSegment l tid seg).lookup tid2 = l.lookup tid2 := by
  induction l with
  | nil =>
    unfold upsertSegment
    rw [if_neg (by simp), List.nil_append, lookup_cons,
      if_neg (show ¬ (tid2 == tid) = true from fun h => hne (eq_of_beq h))]
  | cons p rest ih =>
    obtain ⟨k, v⟩ := p
    rw [upsertSegment_cons]
    by_cases hk : (k == tid) = true
    · rw [if_pos hk]
      have hk2 := eq_of_beq hk
      subst hk2
      rw [lookup_cons, lookup_cons]
      rw [if_neg (show ¬ (tid2 == k) = true from fun h => hne (eq_of_beq h)),
        if_neg (show ¬ (tid2 == k) = true from fun h => hne (eq_of_beq h))]
      exact lookup_map_preserve rest k tid2 seg hne
    · rw [if_neg hk, lookup_cons, lookup_cons]
      by_cases h2 : (tid2 == k) = true
      · rw [if_pos h2, if_pos h2]
      · rw [if_neg h2, if_neg h2]
        exact ih

/-- `set_text_segment` only touches `text_segment`. -/
theorem setTextSegment_fields (t : Text) (o : Option String) :
    (t.setTextSegment o).id = t.id ∧ (t.setTextSegment o).font = t.font
      ∧ (t.setTextSegment o).newLine = t.newLine
      ∧ (t.setTextSegment o).allText = t.allText := by
  cases o <;> exact ⟨rfl, rfl, rfl, rfl⟩

/-- `split` leaves the updated text's segment equal to the returned fitted
part and preserves the id. -/
theorem split_fst_fields (t : Text) (remaining box : Int) :
    (t.split remaining box).1.textSegment = (t.split remaining box).2.1
      ∧ (t.split remaining box).1.id = t.id := by
  unfold Text.split
  split
  · simp only [Text.forceSplit]
    split <;> exact ⟨rfl, rfl⟩
  · exact ⟨rfl, rfl⟩

/-- The fitted part handed back by `_force_split`, when non-empty, fits
the remaining width. -/
theorem forceSplit_fitted_width (t : Text) (remaining box : Int)
    (hf : (t.forceSplit remaining box).2.1 ≠ "") :
    ((t.font.size ((t.forceSplit remaining box).2.1)).1 : Int) ≤ remaining := by
  by_cases hex : ∃ j, j < t.textSegment.length ∧ remaining < t.markerWidth j
  · have hspec := Nat.find_spec hex
    have hmin : ∀ i, i < Nat.find hex → ¬ remaining < t.markerWidth i :=
      fun i hi hov => (Nat.find_min hex hi) ⟨Nat.lt_trans hi hspec.1, hov⟩
    rcases Nat.eq_zero_or_pos (Nat.find hex) with h0 | h0
    · exfalso
      apply hf
      rw [forceSplit_break0 t remaining box (by omega) (by rw [← h0]; exact hspec.2)]
    · rw [forceSplit_breakj t remaining box (Nat.find hex) hspec.1 h0 hspec.2 hmin]
      dsimp only
      have hlast := hmin (Nat.find hex - 1) (by omega)
      unfold Text.markerWidth at hlast
      rw [show Nat.find hex - 1 + 1 = Nat.find hex from by omega] at hlast
      omega
  · push_neg at hex
    have hall : ∀ j, j < t.textSegment.length → ¬ remaining < t.markerWidth j :=
      fun j hj => not_lt.mpr (hex j hj)
    by_cases hn : t.textSegment.length ≤ 1
    · exfalso
      apply hf
      rw [forceSplit_nobreak t remaining box hall, if_pos hn]
    · rw [forceSplit_nobreak t remaining box hall, if_neg hn]
      dsimp only
      have hlast := hall (t.textSegment.length - 2) (by omega)
      unfold Text.markerWidth at hlast
      rw [show t.textSegment.length - 2 + 1 = t.textSegment.length - 1
        from by omega] at hlast
      omega

/-- The fitted part handed back by `split`, when non-empty, fits the
remaining width (candidate fits were width-checked during the scan; force
splits are covered above). -/
theorem split_fitted_width (t : Text) (remaining box : Int)
    (hf : (t.split remaining box).2.1 ≠ "") :
    ((t.font.size ((t.split remaining box).2.1)).1 : Int) ≤ remaining := by
  cases hsp : splitPoints t remaining box with
  | nil =>
    have heq : t.split remaining box = t.forceSplit remaining box := by
      unfold Text.split
      rw [hsp]
    rw [heq] at hf ⊢
    exact forceSplit_fitted_width t remaining box hf
  | cons p ps =>
    have hval : (t.split remaining box).2
        = (((p :: ps).find?
            (fun q => q.1 == minSplitKey p.1 (ps.map Prod.fst))).getD p).2 := by
      unfold Text.split
      rw [hsp]
    have hmem : ((p :: ps).find?
        (fun q => q.1 == minSplitKey p.1 (ps.map Prod.fst))).getD p ∈ p :: ps := by
      cases hfind : (p :: ps).find?
          (fun q => q.1 == minSplitKey p.1 (ps.map Prod.fst)) with
      | none => exact List.mem_cons_self _ _
      | some q0 => simpa using List.mem_of_find?_eq_some hfind
    have hOK := splitPoints_pointOK t remaining box _ (by rw [hsp]; exact hmem)
    rw [hval] at hf ⊢
    rcases hOK.2 with h | h
    · exact absurd h hf
    · exact h

/-- Popping a text and applying its recorded override measures exactly
what `segWidth` later charges it. -/
theorem segWidth_applied (line : Line) (t : Text) :
    line.segWidth (t.setTextSegment (line.textSegments.lookup t.id))
      = ((t.setTextSegment (line.textSegments.lookup t.id)).getSize none).1 := by
  cases hl : line.textSegments.lookup t.id with
  | none => simp [Line.segWidth, Text.setTextSegment, hl, Text.getSize]
  | some s => simp [Line.segWidth, Text.setTextSegment, hl, Text.getSize]

/-- Extending a line by one text adds that text's charge to the sum,
provided the extension does not change what the old texts are charged. -/
theorem sumWidths_snoc (line lineNew : Line) (t : Text)
    (htl : lineNew.textList = line.textList ++ [t])
    (hpres : ∀ x ∈ line.textList, lineNew.segWidth x = line.segWidth x) :
    lineNew.sumWidths = line.sumWidths + lineNew.segWidth t := by
  unfold Line.sumWidths
  rw [htl, List.map_append, List.sum_append, List.map_congr_left hpres]
  simp

/-- What a text is charged on a line with the given override table: the
measured width of its recorded override, else of its current segment. -/
def chargeOf (ts : List (Nat × String)) (x : Text) : Nat :=
  match ts.lookup x.id with
  | some s => (x.font.size s).1
  | none => (x.font.size x.textSegment).1

/-- `segWidth` is `chargeOf` at the line's own override table. -/
theorem segWidth_eq_chargeOf (L : Line) (x : Text) :
    L.segWidth x = chargeOf L.textSegments x := rfl

/-- `sumWidths` through `chargeOf`. -/
theorem sumWidths_eq_chargeOf (L : Line) :
    L.sumWidths = (L.textList.map (chargeOf L.textSegments)).sum := rfl

/-- Popping a text and applying its recorded override measures exactly
what the same table later charges it. -/
theorem chargeOf_applied (ts : List (Nat × String)) (t : Text) :
    chargeOf ts (t.setTextSegment (ts.lookup t.id))
      = ((t.setTextSegment (ts.lookup t.id)).getSize none).1 := by
  cases hl : ts.lookup t.id with
  | none => simp [chargeOf, Text.setTextSegment, hl, Text.getSize]
  | some s => simp [chargeOf, Text.setTextSegment, hl, Text.getSize]

/-- C4: `fit_text` preserves width conformance: a line whose accumulated
`width` equals the sum of its texts' measured widths (with recorded
overrides applied) and is within `box_width` — in particular a fresh empty
line — still satisfies both after being filled from a queue of texts with
distinct identities not already on the line, texts appended whole or
split alike; so the sum of constituent fitted-segment widths never
exceeds `box_width`.  No prefix-monotonicity of the measurer is needed:
every committed fitted part is re-measured against the width check that
let it through. -/
theorem fitText_width_conformance (queue : List Text) :
    ∀ (line : Line) (box : Int),
      ((line.textList ++ queue).map Text.id).Nodup →
      (line.width : Int) ≤ box →
      line.sumWidths = line.width →
      ((Line.fitText line queue box).1.width : Int) ≤ box
        ∧ (Line.fitText line queue box).1.sumWidths
            = (Line.fitText line queue box).1.width := by
  induction queue with
  | nil =>
    intro line box _ hw hs
    exact ⟨hw, hs⟩
  | cons t rest ih =>
    intro line box hnd hw hs
    by_cases hnl : line.newLine = true
    · have e : Line.fitText line (t :: rest) box = (line, t :: rest, [], none) := by
        rw [Line.fitText, if_pos hnl]
      rw [e]
      exact ⟨hw, hs⟩
    · have hdisj : ∀ x ∈ line.textList, x.id ≠ t.id := by
        intro x hx heq
        rw [List.map_append, List.nodup_append] at hnd
        exact hnd.2.2 (List.mem_map_of_mem _ hx)
          (by rw [List.map_cons]; exact heq ▸ List.mem_cons_self _ _)
      by_cases hfit : ((line.width
          + ((t.setTextSegment (List.lookup t.id line.textSegments)).getSize none).1 : Nat) : Int)
          ≤ box
      · have hsumExt : Line.sumWidths { line with
            width := line.width
              + ((t.setTextSegment (List.lookup t.id line.textSegments)).getSize none).1,
            height := max line.height
              ((t.setTextSegment (List.lookup t.id line.textSegments)).getSize none).2,
            textList := line.textList
              ++ [t.setTextSegment (List.lookup t.id line.textSegments)] }
            = line.width
              + ((t.setTextSegment (List.lookup t.id line.textSegments)).getSize none).1 := by
          rw [sumWidths_eq_chargeOf]
          show ((line.textList ++ [t.setTextSegment (List.lookup t.id line.textSegments)]).map
            (chargeOf line.textSegments)).sum = _
          rw [List.map_append, List.sum_append]
          simp only [List.map_cons, List.map_nil, List.sum_cons, List.sum_nil, add_zero]
          rw [chargeOf_applied line.textSegments t]
          rw [show (line.textList.map (chargeOf line.textSegments)).sum
            = line.sumWidths from rfl, hs]
        by_cases hnl2 : (t.setTextSegment (List.lookup t.id line.textSegments)).newLine = true
        · have e : (Line.fitText line (t :: rest) box).1
              = { line with
                  width := line.width
                    + ((t.setTextSegment (List.lookup t.id line.textSegments)).getSize none).1,
                  height := max line.height
                    ((t.setTextSegment (List.lookup t.id line.textSegments)).getSize none).2,
                  textList := line.textList
                    ++ [t.setTextSegment (List.lookup t.id line.textSegments)],
                  newLine := true } := by
            rw [Line.fitText, if_neg hnl]
            dsimp only
            rw [if_pos hfit, if_pos hnl2]
          rw [e]
          exact ⟨hfit, hsumExt⟩
        · have e : (Line.fitText line (t :: rest) box).1
              = (Line.fitText { line with
                  width := line.width
                    + ((t.setTextSegment (List.lookup t.id line.textSegments)).getSize none).1,
                  height := max line.height
                    ((t.setTextSegment (List.lookup t.id line.textSegments)).getSize none).2,
                  textList := line.textList
                    ++ [t.setTextSegment (List.lookup t.id line.textSegments)] }
                 rest box).1 := by
            rw [Line.fitText, if_neg hnl]
            dsimp only
            rw [if_pos hfit, if_neg hnl2]
          rw [e]
          refine ih _ box ?_ hfit hsumExt
          show (((line.textList ++ [t.setTextSegment (List.lookup t.id line.textSegments)])
            ++ rest).map Text.id).Nodup
          rw [List.append_assoc, List.singleton_append]
          have hids : ((line.textList
              ++ (t.setTextSegment (List.lookup t.id line.textSegments)) :: rest).map Text.id)
              = ((line.textList ++ t :: rest).map Text.id) := by
            simp only [List.map_append, List.map_cons,
              (setTextSegment_fields t (List.lookup t.id line.textSegments)).1]
          rw [hids]
          exact hnd
      · by_cases hfe : ((t.setTextSegment (List.lookup t.id line.textSegments)).split
            (box - (line.width : Int)) box).2.1 = ""
        · have e : (Line.fitText line (t :: rest) box).1 = line := by
            rw [Line.fitText, if_neg hnl]
            dsimp only
            rw [if_neg hfit, if_neg (show ¬ ((t.setTextSegment
              (List.lookup t.id line.textSegments)).split
              (box - (line.width : Int)) box).2.1 ≠ "" from by simp [hfe])]
            split <;> rfl
          rw [e]
          exact ⟨hw, hs⟩
        · have eW : (Line.fitText line (t :: rest) box).1.width
              = line.width
                + (((t.setTextSegment (List.lookup t.id line.textSegments)).split
                    (box - (line.width : Int)) box).1.getSize none).1 := by
            rw [Line.fitText, if_neg hnl]
            dsimp only
            rw [if_neg hfit, if_pos (show ((t.setTextSegment
              (List.lookup t.id line.textSegments)).split
              (box - (line.width : Int)) box).2.1 ≠ "" from hfe)]
            split <;> rfl
          have eTL : (Line.fitText line (t :: rest) box).1.textList
              = line.textList
                ++ [((t.setTextSegment (List.lookup t.id line.textSegments)).split
                    (box - (line.width : Int)) box).1] := by
            rw [Line.fitText, if_neg hnl]
            dsimp only
            rw [if_neg hfit, if_pos (show ((t.setTextSegment
              (List.lookup t.id line.textSegments)).split
              (box - (line.width : Int)) box).2.1 ≠ "" from hfe)]
            split <;> rfl
          have eTS : (Line.fitText line (t :: rest) box).1.textSegments
              = upsertSegment line.textSegments
                  ((t.setTextSegment (List.lookup t.id line.textSegments)).split
                    (box - (line.width : Int)) box).1.id
                  ((t.setTextSegment (List.lookup t.id line.textSegments)).split
                    (box - (line.width : Int)) box).2.1 := by
            rw [Line.fitText, if_neg hnl]
            dsimp only
            rw [if_neg hfit, if_pos (show ((t.setTextSegment
              (List.lookup t.id line.textSegments)).split
              (box - (line.width : Int)) box).2.1 ≠ "" from hfe)]
            split <;> rfl
          have hid2 : ((t.setTextSegment (List.lookup t.id line.textSegments)).split
              (box - (line.width : Int)) box).1.id = t.id := by
            rw [(split_fst_fields _ _ _).2,
              (setTextSegment_fields t (List.lookup t.id line.textSegments)).1]
          have hseg2 := (split_fst_fields
            (t.setTextSegment (List.lookup t.id line.textSegments))
            (box - (line.width : Int)) box).1
          have hfont2 := (split_preserves_allText_font
            (t.setTextSegment (List.lookup t.id line.textSegments))
            (box - (line.width : Int)) box).2
          have hw2 : (((t.setTextSegment (List.lookup t.id line.textSegments)).split
              (box - (line.width : Int)) box).1.getSize none).1
              = (((t.setTextSegment (List.lookup t.id line.textSegments)).font).size
                  (((t.setTextSegment (List.lookup t.id line.textSegments)).split
                    (box - (line.width : Int)) box).2.1)).1 := by
            unfold Text.getSize
            rw [show (Option.getD none (((t.setTextSegment
              (List.lookup t.id line.textSegments)).split
              (box - (line.width : Int)) box).1.textSegment))
              = (((t.setTextSegment (List.lookup t.id line.textSegments)).split
                  (box - (line.width : Int)) box).1.textSegment) from rfl]
            rw [hseg2, hfont2]
          have hwidthf := split_fitted_width
            (t.setTextSegment (List.lookup t.id line.textSegments))
            (box - (line.width : Int)) box hfe
          constructor
          · rw [eW]
            have hv : ((((t.setTextSegment (List.lookup t.id line.textSegments)).split
                (box - (line.width : Int)) box).1.getSize none).1 : Int)
                ≤ box - (line.width : Int) := by
              rw [hw2]
              exact hwidthf
            push_cast
            omega
          · rw [sumWidths_eq_chargeOf, eTL, eTS, eW]
            rw [List.map_append, List.sum_append]
            simp only [List.map_cons, List.map_nil, List.sum_cons, List.sum_nil, add_zero]
            have hmapold : (line.textList.map (chargeOf (upsertSegment line.textSegments
                ((t.setTextSegment (List.lookup t.id line.textSegments)).split
                  (box - (line.width : Int)) box).1.id
                ((t.setTextSegment (List.lookup t.id line.textSegments)).split
                  (box - (line.width : Int)) box).2.1)))
                = line.textList.map (chargeOf line.textSegments) := by
              refine List.map_congr_left ?_
              intro x hx
              unfold chargeOf
              rw [upsert_lookup_other _ _ _ _
                (show x.id ≠ ((t.setTextSegment (List.lookup t.id line.textSegments)).split
                  (box - (line.width : Int)) box).1.id from by
                  rw [hid2]; exact hdisj x hx)]
            have hchg : chargeOf (upsertSegment line.textSegments
                ((t.setTextSegment (List.lookup t.id line.textSegments)).split
                  (box - (line.width : Int)) box).1.id
                ((t.setTextSegment (List.lookup t.id line.textSegments)).split
                  (box - (line.width : Int)) box).2.1)
                (((t.setTextSegment (List.lookup t.id line.textSegments)).split
                  (box - (line.width : Int)) box).1)
                = (((t.setTextSegment (List.lookup t.id line.textSegments)).split
                    (box - (line.width : Int)) box).1.getSize none).1 := by
              unfold chargeOf
              rw [upsert_lookup_self]
              unfold Text.getSize
              rw [show (Option.getD none (((t.setTextSegment
                (List.lookup t.id line.textSegments)).split
                (box - (line.width : Int)) box).1.textSegment))
                = (((t.setTextSegment (List.lookup t.id line.textSegments)).split
                    (box - (line.width : Int)) box).1.textSegment) from rfl]
              rw [hseg2]
            rw [hmapold, hchg]
            rw [show (line.textList.map (chargeOf line.textSegments)).sum
              = line.sumWidths from rfl, hs]

/-- Witness for C4 at a fresh empty line and a two-text queue in which the
second text is deferred by a split. -/
theorem fitText_width_conformance_witness :
    ((Line.empty.textList ++ [mkText 1 "aaa", mkText 2 "bb"]).map Text.id).Nodup ∧
      ((Line.empty.width : Nat) : Int) ≤ 45 ∧
      Line.empty.sumWidths = Line.empty.width ∧
      (((Line.fitText Line.empty [mkText 1 "aaa", mkText 2 "bb"] 45).1.width : Nat) : Int) ≤ 45 ∧
      (Line.fitText Line.empty [mkText 1 "aaa", mkText 2 "bb"] 45).1.sumWidths
        = (Line.fitText Line.empty [mkText 1 "aaa", mkText 2 "bb"] 45).1.width :=
  ⟨by decide, by decide, by decide,
    (fitText_width_conformance [mkText 1 "aaa", mkText 2 "bb"] Line.empty 45
      (by decide) (by decide) (by decide)).1,
    (fitText_width_conformance [mkText 1 "aaa", mkText 2 "bb"] Line.empty 45
      (by decide) (by decide) (by decide)).2⟩

end Textboxes
